import Mathlib

/-!
SQL dialects of gorm: the baseline dialect and the Firebird dialect.

A shallow embedding of `dialect_common.go` and `dialect_firebird.go`:
pagination clauses (`LimitAndOffsetSQL`), column type inference
(`DataTypeOf`), key names (`BuildKeyName`) and the auto-increment emulation
with generators and triggers (`CreateAutoIncrementTrigger`) of
`commonDialect` and `firebirdsql`, together with the parts of the Go
standard library they call (`strconv.ParseInt`, `fmt.Sprint`, the `%d`
verb, `strings.TrimSpace`, `strings.ToUpper`, `strings.Join`, and
`ReplaceAllString` on the one regular expression `keyNameRegex`).

Go's `int`/`int64` values are integers in `[-2^63, 2^63)`; arithmetic that
can leave that range is wrapped explicitly with `wrapInt64`.  Go strings
are read character by character: every function below that inspects a
string only distinguishes ASCII characters, and a non-ASCII character is
rejected exactly where its first byte would be.
-/

namespace Gorm

/-! ## Machine integers -/

/-- The value of a Go `int64` after an operation whose mathematical result is `x`
(two's complement wrap-around). -/
def wrapInt64 (x : Int) : Int :=
  (x + 9223372036854775808) % 18446744073709551616 - 9223372036854775808

/-- The range of a Go `int64` (and of `int` on a 64-bit platform). -/
def IsInt64 (x : Int) : Prop :=
  -9223372036854775808 ≤ x ∧ x ≤ 9223372036854775807

instance (x : Int) : Decidable (IsInt64 x) := by
  unfold IsInt64; infer_instance

/-! ## strconv -/

namespace strconv

/-- The error kinds a `*strconv.NumError` carries. -/
inductive NumError where
  | ErrSyntax
  | ErrRange
  | ErrBase
  | ErrBitSize
  deriving DecidableEq, Repr

/-- Go: `lower(c) = c | ('x' - 'X')`, on the character code. -/
def lower (c : Char) : Nat := c.toNat ||| 32

/-- The digit value the loop of `ParseUint` assigns to a character, if any:
`c - '0'` for decimal digits, `lower(c) - 'a' + 10` for letters. -/
def digitOf (c : Char) : Option Nat :=
  if 48 ≤ c.toNat ∧ c.toNat ≤ 57 then some (c.toNat - 48)
  else if 97 ≤ lower c ∧ lower c ≤ 122 then some (lower c - 97 + 10)
  else none

/-- The scanning state of `underscoreOK`: the previous character was a digit
(`'0'`), an underscore (`'_'`), neither (`'!'`), or there is none yet (`'^'`). -/
inductive Prev where
  | start
  | digit
  | underscore
  | neither
  deriving DecidableEq, Repr

/-- The loop "Number proper" of `underscoreOK`. -/
def underscoreOK.loop (hex : Bool) : List Char → Prev → Bool
  | [], i => decide (i ≠ Prev.underscore)
  | c :: cs, i =>
    if (48 ≤ c.toNat ∧ c.toNat ≤ 57) ∨ (hex = true ∧ 97 ≤ lower c ∧ lower c ≤ 102) then
      underscoreOK.loop hex cs Prev.digit
    else if c = '_' then
      if i ≠ Prev.digit then false else underscoreOK.loop hex cs Prev.underscore
    else if i = Prev.underscore then false
    else underscoreOK.loop hex cs Prev.neither

/-- Go: `underscoreOK(s)`: underscores appear only between digits or between a
base prefix and a digit. -/
def underscoreOK (s : List Char) : Bool :=
  let s1 := if 1 ≤ s.length ∧ (s.headD ' ' = '-' ∨ s.headD ' ' = '+') then s.drop 1 else s
  if 2 ≤ s1.length ∧ s1.headD ' ' = '0' ∧
      (lower (s1.getD 1 ' ') = 98 ∨ lower (s1.getD 1 ' ') = 111 ∨ lower (s1.getD 1 ' ') = 120) then
    underscoreOK.loop (decide (lower (s1.getD 1 ' ') = 120)) (s1.drop 2) Prev.digit
  else
    underscoreOK.loop false s1 Prev.start

/-- The digit loop of `ParseUint`; an early `return` of the Go loop is the
`error` result, carrying the returned value and error. -/
def ParseUint.loop (base : Nat) (base0 : Bool) (cutoff maxVal : Nat) :
    List Char → Nat → Bool → Except (Nat × NumError) (Nat × Bool)
  | [], n, underscores => Except.ok (n, underscores)
  | c :: cs, n, underscores =>
    if c = '_' ∧ base0 = true then
      ParseUint.loop base base0 cutoff maxVal cs n true
    else
      match digitOf c with
      | none => Except.error (0, NumError.ErrSyntax)
      | some d =>
        if d ≥ base then Except.error (0, NumError.ErrSyntax)
        else if n ≥ cutoff then Except.error (maxVal, NumError.ErrRange)
        else
          let n0 := n * base % 18446744073709551616
          let n1 := (n0 + d) % 18446744073709551616
          if n1 < n0 ∨ n1 > maxVal then Except.error (maxVal, NumError.ErrRange)
          else ParseUint.loop base base0 cutoff maxVal cs n1 underscores

/-- The base selection of `ParseUint`: a valid explicit base, or for base 0 the
base announced by the prefix (`0b`, `0o`, `0x`, a bare leading `0` for octal,
decimal otherwise) and the rest of the string; `none` for an invalid base. -/
def ParseUint.selectBase (s : List Char) (base : Nat) : Option (Nat × List Char) :=
  if 2 ≤ base ∧ base ≤ 36 then some (base, s)
  else if base = 0 then
    if s.headD ' ' = '0' then
      if 3 ≤ s.length ∧ lower (s.getD 1 ' ') = 98 then some (2, s.drop 2)
      else if 3 ≤ s.length ∧ lower (s.getD 1 ' ') = 111 then some (8, s.drop 2)
      else if 3 ≤ s.length ∧ lower (s.getD 1 ' ') = 120 then some (16, s.drop 2)
      else some (8, s.drop 1)
    else some (10, s)
  else none

/-- Go: `strconv.ParseUint(s, base, bitSize)` with `IntSize = 64`, as of Go 1.13
(base prefixes `0b`, `0o`, `0x` and underscores in base 0); the pair is the
returned value and the error (`none` for `nil`). -/
def ParseUint (s : List Char) (base bitSize : Nat) : Nat × Option NumError :=
  if s = [] then (0, some NumError.ErrSyntax)
  else
    match ParseUint.selectBase s base with
    | none => (0, some NumError.ErrBase)
    | some (b, body) =>
      if bitSize > 64 then (0, some NumError.ErrBitSize)
      else
        let bits := if bitSize = 0 then 64 else bitSize
        let cutoff := 18446744073709551615 / b + 1
        let maxVal := 2 ^ bits - 1
        match ParseUint.loop b (decide (base = 0)) cutoff maxVal body 0 false with
        | Except.error (v, e) => (v, some e)
        | Except.ok (n, underscores) =>
          if underscores = true ∧ underscoreOK s = false then (0, some NumError.ErrSyntax)
          else (n, none)

/-- Go: `strconv.ParseInt(s, base, bitSize)` with `IntSize = 64`; the pair is
the returned value and the error (`none` for `nil`). -/
def ParseInt (s : String) (base bitSize : Nat) : Int × Option NumError :=
  let cs := s.data
  if cs = [] then (0, some NumError.ErrSyntax)
  else
    let neg := decide (cs.headD ' ' = '-')
    let body := if cs.headD ' ' = '+' then cs.drop 1 else if cs.headD ' ' = '-' then cs.drop 1 else cs
    match ParseUint body base bitSize with
    | (un, err) =>
      if err ≠ none ∧ err ≠ some NumError.ErrRange then (0, err)
      else
        let bits := if bitSize = 0 then 64 else bitSize
        let cutoff : Nat := 2 ^ (bits - 1)
        if neg = false ∧ un ≥ cutoff then (wrapInt64 ((cutoff : Int) - 1), some NumError.ErrRange)
        else if neg = true ∧ un > cutoff then (wrapInt64 (-(wrapInt64 (cutoff : Int))), some NumError.ErrRange)
        else
          let n := wrapInt64 (un : Int)
          (if neg = true then wrapInt64 (-n) else n, none)

end strconv

/-! ## fmt -/

/-- The weakly typed `interface` argument of `LimitAndOffsetSQL`: the untyped
`nil`, an integer, or a string.  A value of any other type enters through the
text `fmt.Sprint` prints for it, as `str`. -/
inductive GoValue where
  | null
  | int (i : Int)
  | str (s : String)
  deriving DecidableEq, Repr

namespace fmt

/-- The `%d` verb on an integer: decimal digits, with a leading minus sign for a
negative number. -/
def formatInt (i : Int) : String :=
  if i < 0 then "-" ++ Nat.repr i.natAbs else Nat.repr i.natAbs

/-- Go: `fmt.Sprint(v)` for a single operand. -/
def Sprint : GoValue → String
  | GoValue.null => "<nil>"
  | GoValue.int i => formatInt i
  | GoValue.str s => s

end fmt

/-! ## Pagination -/

namespace commonDialect

/-- Go: `func (commonDialect) LimitAndOffsetSQL(limit, offset interface) (sql string)`. -/
def LimitAndOffsetSQL (limit offset : GoValue) : String :=
  let sql := ""
  let sql :=
    if limit ≠ GoValue.null then
      let parsed := strconv.ParseInt (fmt.Sprint limit) 0 0
      if parsed.2 = none ∧ parsed.1 ≥ 0 then sql ++ (" LIMIT " ++ fmt.formatInt parsed.1) else sql
    else sql
  let sql :=
    if offset ≠ GoValue.null then
      let parsed := strconv.ParseInt (fmt.Sprint offset) 0 0
      if parsed.2 = none ∧ parsed.1 ≥ 0 then sql ++ (" OFFSET " ++ fmt.formatInt parsed.1) else sql
    else sql
  sql

end commonDialect

namespace firebirdsql

/-- Go: `func (s firebirdsql) LimitAndOffsetSQL(limit, offset interface) (sql string)`.
`parsedOffset` and `parsedLimit` start at zero; the assignment from `ParseInt`
stores the returned value also when an error is returned (`parsed.1` is the
value, `parsed.2` the error). -/
def LimitAndOffsetSQL (limit offset : GoValue) : String :=
  if offset = GoValue.null ∧ limit = GoValue.null then ""
  else
    let parsedOffset : Int :=
      if offset ≠ GoValue.null then
        let parsed := strconv.ParseInt (fmt.Sprint offset) 0 0
        if parsed.2 = none ∧ parsed.1 > 0 then wrapInt64 (parsed.1 + 1) else 0
      else 0
    let parsedLimit : Int :=
      if limit ≠ GoValue.null then
        let parsed := strconv.ParseInt (fmt.Sprint limit) 0 0
        if parsed.2 = none ∧ parsed.1 > 0 then
          if parsedOffset > 0 then wrapInt64 (wrapInt64 (parsed.1 + parsedOffset) - 1) else parsed.1
        else parsed.1
      else 0
    let sql := ""
    if parsedOffset > 0 ∧ parsedLimit > 0 then
      sql ++ (" ROWS " ++ fmt.formatInt parsedOffset ++ " TO " ++ fmt.formatInt parsedLimit)
    else if parsedOffset > 0 then
      sql ++ (" ROWS " ++ fmt.formatInt parsedOffset ++ " TO " ++ fmt.formatInt 10000)
    else if parsedLimit ≥ 0 then
      sql ++ (" ROWS " ++ fmt.formatInt parsedLimit)
    else
      sql ++ ""

end firebirdsql

/-! ## strings -/

namespace strings

/-- Go: `unicode.IsSpace(r)`: the white space characters `strings.TrimSpace` removes. -/
def isSpace (c : Char) : Bool :=
  decide (c.toNat ∈ [9, 10, 11, 12, 13, 32, 133, 160, 5760, 8232, 8233, 8239, 8287, 12288]) ||
    decide (8192 ≤ c.toNat ∧ c.toNat ≤ 8202)

/-- Go: `strings.TrimSpace(s)`: `s` without its leading and trailing white space. -/
def TrimSpace (s : String) : String :=
  String.mk ((s.data.dropWhile isSpace).reverse.dropWhile isSpace).reverse

/-- Go: `strings.ToLower(s)`, on the ASCII letters.  Its one use compares the
result with `"false"`, and no character outside ASCII has a lower case among the
letters of that word. -/
def ToLower (s : String) : String :=
  String.mk (s.data.map Char.toLower)

/-- The upper case of one character, on the ASCII letters. -/
def upperChar (c : Char) : Char :=
  if 97 ≤ c.toNat ∧ c.toNat ≤ 122 then Char.ofNat (c.toNat - 32) else c

/-- Go: `strings.ToUpper(s)`, on the ASCII letters.  The dialects apply it to key
names in which only ASCII letters, digits and underscores are left. -/
def ToUpper (s : String) : String :=
  String.mk (s.data.map upperChar)

/-- Go: `strings.Join(elems, sep)`. -/
def Join (elems : List String) (sep : String) : String :=
  match elems with
  | [] => ""
  | e :: rest => rest.foldl (fun acc x => acc ++ sep ++ x) e

end strings

/-! ## reflect -/

namespace reflect

/-- Go: `reflect.Kind`. -/
inductive Kind where
  | Invalid | Bool
  | Int | Int8 | Int16 | Int32 | Int64
  | Uint | Uint8 | Uint16 | Uint32 | Uint64 | Uintptr
  | Float32 | Float64 | Complex64 | Complex128
  | Array | Chan | Func | Interface | Map | Ptr | Slice | String | Struct | UnsafePointer
  deriving DecidableEq, Repr

/-- Go: `Kind.String()`, the name of a kind. -/
def kindName : Kind → String
  | Kind.Invalid => "invalid"
  | Kind.Bool => "bool"
  | Kind.Int => "int"
  | Kind.Int8 => "int8"
  | Kind.Int16 => "int16"
  | Kind.Int32 => "int32"
  | Kind.Int64 => "int64"
  | Kind.Uint => "uint"
  | Kind.Uint8 => "uint8"
  | Kind.Uint16 => "uint16"
  | Kind.Uint32 => "uint32"
  | Kind.Uint64 => "uint64"
  | Kind.Uintptr => "uintptr"
  | Kind.Float32 => "float32"
  | Kind.Float64 => "float64"
  | Kind.Complex64 => "complex64"
  | Kind.Complex128 => "complex128"
  | Kind.Array => "array"
  | Kind.Chan => "chan"
  | Kind.Func => "func"
  | Kind.Interface => "interface"
  | Kind.Map => "map"
  | Kind.Ptr => "ptr"
  | Kind.Slice => "slice"
  | Kind.String => "string"
  | Kind.Struct => "struct"
  | Kind.UnsafePointer => "unsafe.Pointer"

/-- What the dialects observe of the `reflect.Value` of a field: its kind, the
name of its type, whether its dynamic type is `time.Time`, whether it is
`[]byte` (the unnamed slice type), and whether its element type is `uint8`. -/
structure Value where
  kind : Kind
  typeName : String
  isTime : Bool
  isByteSlice : Bool
  elemIsUint8 : Bool
  deriving DecidableEq, Repr

/-- The observations are those of an actual Go value: only a struct is a
`time.Time`, and `[]byte` is a slice whose element type is `uint8`. -/
def Value.WellFormed (v : Value) : Prop :=
  (v.isTime = true → v.kind = Kind.Struct) ∧
  (v.isByteSlice = true → v.kind = Kind.Slice ∧ v.elemIsUint8 = true)

instance (v : Value) : Decidable v.WellFormed := by
  unfold Value.WellFormed; infer_instance

end reflect

/-! ## Fields -/

deriving instance DecidableEq for Except

/-- The part of `StructField` that the dialects read. -/
structure StructField where
  Name : String
  IsPrimaryKey : Bool
  TagSettings : List (String × String)
  deriving DecidableEq, Repr

/-- Go: `field.TagSettingsGet(key)`, and the lookup `field.TagSettings[key]`. -/
def StructField.TagSettingsGet (field : StructField) (key : String) : Option String :=
  field.TagSettings.lookup key

/-- The four results of `ParseFieldStructForDialect(field, s)`, which the two
dialect files call and do not define: the reflected value of the field, the
explicit SQL type of the field (empty when there is none), the size hint and the
additional type.  `DataTypeOf` takes them as an input. -/
structure ParsedField where
  dataValue : reflect.Value
  sqlType : String
  size : Int
  additionalType : String
  deriving DecidableEq, Repr

/-- Go: `IsByteArrayOrSlice(value)`. -/
def IsByteArrayOrSlice (value : reflect.Value) : Bool :=
  (decide (value.kind = reflect.Kind.Array) || decide (value.kind = reflect.Kind.Slice)) &&
    value.elemIsUint8

/-- The last lines of both `DataTypeOf`: the additional type is appended unless
it is blank. -/
def appendAdditionalType (sqlType additionalType : String) : String :=
  if strings.TrimSpace additionalType = "" then sqlType
  else sqlType ++ " " ++ additionalType

namespace commonDialect

/-- Go: `func (s *commonDialect) fieldCanAutoIncrement(field *StructField) bool`. -/
def fieldCanAutoIncrement (field : StructField) : Bool :=
  match field.TagSettingsGet "AUTO_INCREMENT" with
  | some value => decide (strings.ToLower value ≠ "false")
  | none => field.IsPrimaryKey

/-- The `switch dataValue.Kind()` of `commonDialect.DataTypeOf`: the inferred
type, empty when no case assigns one. -/
def inferType (field : StructField) (dataValue : reflect.Value) (size : Int) : String :=
  match dataValue.kind with
  | reflect.Kind.Bool => "BOOLEAN"
  | reflect.Kind.Int | reflect.Kind.Int8 | reflect.Kind.Int16 | reflect.Kind.Int32
  | reflect.Kind.Uint | reflect.Kind.Uint8 | reflect.Kind.Uint16 | reflect.Kind.Uint32
  | reflect.Kind.Uintptr =>
    if fieldCanAutoIncrement field then "INTEGER AUTO_INCREMENT" else "INTEGER"
  | reflect.Kind.Int64 | reflect.Kind.Uint64 =>
    if fieldCanAutoIncrement field then "BIGINT AUTO_INCREMENT" else "BIGINT"
  | reflect.Kind.Float32 | reflect.Kind.Float64 => "FLOAT"
  | reflect.Kind.String =>
    if size > 0 ∧ size < 65532 then "VARCHAR(" ++ fmt.formatInt size ++ ")"
    else "VARCHAR(65532)"
  | reflect.Kind.Struct =>
    if dataValue.isTime then "TIMESTAMP" else ""
  | _ =>
    if dataValue.isByteSlice then
      if size > 0 ∧ size < 65532 then "BINARY(" ++ fmt.formatInt size ++ ")"
      else "BINARY(65532)"
    else ""

/-- Go: `func (s *commonDialect) DataTypeOf(field *StructField) string`; the
`error` result is the panic, with its message. -/
def DataTypeOf (field : StructField) (parsed : ParsedField) : Except String String :=
  let sqlType :=
    if parsed.sqlType = "" then inferType field parsed.dataValue parsed.size
    else parsed.sqlType
  if sqlType = "" then
    Except.error ("invalid sql type " ++ parsed.dataValue.typeName ++ " (" ++
      reflect.kindName parsed.dataValue.kind ++ ") for commonDialect")
  else
    Except.ok (appendAdditionalType sqlType parsed.additionalType)

end commonDialect

namespace firebirdsql

/-- The `switch dataValue.Kind()` of `firebirdsql.DataTypeOf`: the inferred type,
empty when no case assigns one. -/
def inferType (field : StructField) (dataValue : reflect.Value) (size : Int) : String :=
  match dataValue.kind with
  | reflect.Kind.Bool | reflect.Kind.Int8 | reflect.Kind.Uint8 => "SMALLINT"
  | reflect.Kind.Int | reflect.Kind.Int16 | reflect.Kind.Int32 => "INTEGER"
  | reflect.Kind.Uint | reflect.Kind.Uint16 | reflect.Kind.Uint32 => "INTEGER"
  | reflect.Kind.Int64 | reflect.Kind.Uint64 => "BIGINT"
  | reflect.Kind.Float32 => "FLOAT"
  | reflect.Kind.Float64 => "DOUBLE PRECISION"
  | reflect.Kind.String =>
    if size > 0 ∧ size < 32765 then "VARCHAR(" ++ fmt.formatInt size ++ ")" else ""
  | reflect.Kind.Struct =>
    if dataValue.isTime then
      if (field.TagSettingsGet "NOT NULL").isSome ∨ field.IsPrimaryKey = true then
        "TIMESTAMP NOT NULL"
      else "TIMESTAMP"
    else ""
  | _ =>
    if IsByteArrayOrSlice dataValue then
      if size > 0 ∧ size < 65532 then "BLOB" else ""
    else ""

/-- Go: `func (s *firebirdsql) DataTypeOf(field *StructField) string`; the
`error` result is the panic, with its message. -/
def DataTypeOf (field : StructField) (parsed : ParsedField) : Except String String :=
  let sqlType :=
    if parsed.sqlType = "" then inferType field parsed.dataValue parsed.size
    else parsed.sqlType
  if sqlType = "" then
    Except.error ("invalid sql type " ++ parsed.dataValue.typeName ++ " (" ++
      reflect.kindName parsed.dataValue.kind ++ ") in field " ++ field.Name ++ " for firebirdsql")
  else
    Except.ok (appendAdditionalType sqlType parsed.additionalType)

end firebirdsql

/-! ## Key names -/

/-- The character class `a-zA-Z0-9` of `keyNameRegex`. -/
def isKeyNameLetter (c : Char) : Bool :=
  decide (97 ≤ c.toNat ∧ c.toNat ≤ 122) || decide (65 ≤ c.toNat ∧ c.toNat ≤ 90) ||
    decide (48 ≤ c.toNat ∧ c.toNat ≤ 57)

/-- The scan behind `keyNameRegex.ReplaceAllString(s, "_")`: a character of the
class is copied, and a character outside it writes an underscore when it opens a
run (`inRun = false`) and nothing when it continues one. -/
def keyNameRegex.replaceRuns : Bool → List Char → List Char
  | _, [] => []
  | inRun, c :: cs =>
    if isKeyNameLetter c then c :: keyNameRegex.replaceRuns false cs
    else if inRun then keyNameRegex.replaceRuns true cs
    else '_' :: keyNameRegex.replaceRuns true cs

/-- Go: `keyNameRegex.ReplaceAllString(s, "_")` for
`keyNameRegex = regexp.MustCompile("[^a-zA-Z0-9]+")`: every maximal run of
characters outside the class is replaced by one underscore. -/
def keyNameRegex.ReplaceAllString (s : String) : String :=
  String.mk (keyNameRegex.replaceRuns false s.data)

namespace DefaultForeignKeyNamer

/-- Go: `func (DefaultForeignKeyNamer) BuildKeyName(kind, tableName string, fields ...string) string`. -/
def BuildKeyName (kind tableName : String) (fields : List String) : String :=
  let keyName := kind ++ "_" ++ tableName ++ "_" ++ strings.Join fields "_"
  let keyName := keyNameRegex.ReplaceAllString keyName
  keyName

end DefaultForeignKeyNamer

namespace firebirdsql

set_option linter.unusedVariables false in
/-- Go: `func (s firebirdsql) BuildKeyName(kind, tableName string, fields ...string) string`.
The format `"%s_%s"` takes `kind` and the joined fields; `tableName` is not used. -/
def BuildKeyName (kind tableName : String) (fields : List String) : String :=
  let keyName := kind ++ "_" ++ strings.Join fields "_"
  let keyName := keyNameRegex.ReplaceAllString keyName
  let keyName := strings.ToUpper keyName
  keyName

end firebirdsql

/-! ## The generator catalog -/

/-- The statements the auto-increment emulation passes to `db.Exec`. -/
inductive Statement where
  | createGenerator (generatorName : String)
  | createTrigger (triggerName tableName column generatorName : String)
  deriving DecidableEq, Repr

/-- The SQL text of a statement: `"CREATE GENERATOR %v;"` and the format
`autoIncrementSql` of `CreateAutoIncrementTrigger`. -/
def Statement.sql : Statement → String
  | Statement.createGenerator generatorName => "CREATE GENERATOR " ++ generatorName ++ ";"
  | Statement.createTrigger triggerName tableName column generatorName =>
    "CREATE TRIGGER " ++ triggerName ++ " FOR " ++ tableName ++
      " ACTIVE BEFORE INSERT POSITION 0 AS BEGIN IF (NEW." ++ column ++ " IS NULL) THEN NEW." ++
      column ++ " = GEN_ID(" ++ generatorName ++ ",1); END"

/-- The database behind `s.db`, as far as the generators go: the names in
`RDB$GENERATORS`, and the statements executed so far, oldest first.  Firebird
keeps the name of a generator in upper case. -/
structure Catalog where
  generators : List String
  executed : List Statement
  deriving DecidableEq, Repr

/-- The effect of `s.db.Exec(statement)`: the statement is recorded, and a
successful `CREATE GENERATOR` (one whose name is not yet defined) adds the name
to the catalog. -/
def Catalog.Exec (db : Catalog) (statement : Statement) : Catalog :=
  match statement with
  | Statement.createGenerator generatorName =>
    Catalog.mk
      (if strings.ToUpper generatorName ∈ db.generators then db.generators
        else strings.ToUpper generatorName :: db.generators)
      (db.executed ++ [statement])
  | Statement.createTrigger _ _ _ _ => Catalog.mk db.generators (db.executed ++ [statement])

/-- The count `SELECT COUNT(*) FROM RDB$GENERATORS WHERE RDB$GENERATOR_NAME=?` scans. -/
def Catalog.countGenerators (db : Catalog) (generatorName : String) : Nat :=
  (db.generators.filter (fun g => decide (g = generatorName))).length

namespace firebirdsql

/-- Go: `func (s firebirdsql) HasGeneratorName(generatorName string) bool`. -/
def HasGeneratorName (db : Catalog) (generatorName : String) : Bool :=
  let generatorName := strings.ToUpper generatorName
  let count := db.countGenerators generatorName
  decide (count > 0)

/-- Go: `func (s firebirdsql) CreateGeneratorName(generatorName string)`; the
result is the database after the call. -/
def CreateGeneratorName (db : Catalog) (generatorName : String) : Catalog :=
  if HasGeneratorName db generatorName = false then
    db.Exec (Statement.createGenerator generatorName)
  else db

/-- Go: `func (s firebirdsql) CreateAutoIncrementTrigger(tableName string, column string)`;
the result is the database after the call. -/
def CreateAutoIncrementTrigger (db : Catalog) (tableName column : String) : Catalog :=
  let triggerName := BuildKeyName tableName column ["BI"]
  let generatorName := BuildKeyName "GEN" tableName [column]
  if HasGeneratorName db generatorName then db
  else
    let db := CreateGeneratorName db generatorName
    db.Exec (Statement.createTrigger triggerName tableName column generatorName)

end firebirdsql

/-! ## The specification's reading of fields and key names -/

/-- The value kinds the specification lists as having an inference case in the
baseline dialect: bool, the fixed-width signed and unsigned integers with
uintptr, the floats, string, a `time.Time` struct, and `[]byte`. -/
def hasInferenceCase (v : reflect.Value) : Bool :=
  decide (v.kind ∈ [reflect.Kind.Bool,
    reflect.Kind.Int, reflect.Kind.Int8, reflect.Kind.Int16, reflect.Kind.Int32,
    reflect.Kind.Int64, reflect.Kind.Uint, reflect.Kind.Uint8, reflect.Kind.Uint16,
    reflect.Kind.Uint32, reflect.Kind.Uint64, reflect.Kind.Uintptr,
    reflect.Kind.Float32, reflect.Kind.Float64, reflect.Kind.String]) ||
    v.isTime || v.isByteSlice

/-- The integer kinds of at most 32 bits, with `int`, `uint` and `uintptr`. -/
def isSmallIntKind (k : reflect.Kind) : Bool :=
  decide (k ∈ [reflect.Kind.Int, reflect.Kind.Int8, reflect.Kind.Int16, reflect.Kind.Int32,
    reflect.Kind.Uint, reflect.Kind.Uint8, reflect.Kind.Uint16, reflect.Kind.Uint32,
    reflect.Kind.Uintptr])

/-- The 64-bit integer kinds. -/
def isBigIntKind (k : reflect.Kind) : Bool :=
  decide (k = reflect.Kind.Int64 ∨ k = reflect.Kind.Uint64)

/-- Two strings are equal up to the case of their ASCII letters. -/
def equalIgnoringCase (a b : String) : Bool :=
  decide (a.data.map Char.toLower = b.data.map Char.toLower)

/-- The specification's auto-increment decision: the `AUTO_INCREMENT` setting is
present with a value other than `false` in any case, or it is absent and the
field is a primary key. -/
def wantsAutoIncrement (field : StructField) : Bool :=
  match field.TagSettings.lookup "AUTO_INCREMENT" with
  | some value => !equalIgnoringCase value "false"
  | none => field.IsPrimaryKey

/-- A character of a key name: an ASCII letter, a digit or the underscore. -/
def isKeyNameChar (c : Char) : Bool :=
  isKeyNameLetter c || decide (c = '_')

/-- A character of a Firebird key name: an upper case ASCII letter, a digit or
the underscore. -/
def isUpperKeyNameChar (c : Char) : Bool :=
  decide (65 ≤ c.toNat ∧ c.toNat ≤ 90) || decide (48 ≤ c.toNat ∧ c.toNat ≤ 57) ||
    decide (c = '_')

/-- Two underscores stand next to each other somewhere in the list. -/
def hasDoubleUnderscore : List Char → Bool
  | a :: b :: rest => (decide (a = '_') && decide (b = '_')) || hasDoubleUnderscore (b :: rest)
  | _ => false

/-! ## Sample fields -/

/-- The reflected value of a `time.Time` field. -/
def timeValue : reflect.Value := reflect.Value.mk reflect.Kind.Struct "Time" true false false

/-- The reflected value of an `int64` field. -/
def int64Value : reflect.Value := reflect.Value.mk reflect.Kind.Int64 "int64" false false false

/-- A primary key field named `ID` whose tag turns auto-increment off. -/
def keyFieldWithoutAutoIncrement : StructField :=
  StructField.mk "ID" true [("AUTO_INCREMENT", "false")]

/-- A primary key field named `ID` without tag settings. -/
def keyField : StructField := StructField.mk "ID" true []

/-- A database without generators, on which nothing has been executed. -/
def emptyCatalog : Catalog := Catalog.mk [] []


/-- A field named `F` that is no primary key and has no tag settings. -/
def plainField : StructField := StructField.mk "F" false []

/-- The reflected value of a `string` field. -/
def stringValue : reflect.Value := reflect.Value.mk reflect.Kind.String "string" false false false

/-- The reflected value of a `[]byte` field. -/
def byteSliceValue : reflect.Value := reflect.Value.mk reflect.Kind.Slice "" false true true

/-- The reflected value of a `bool` field. -/
def boolValue : reflect.Value := reflect.Value.mk reflect.Kind.Bool "bool" false false false

/-- The reflected value of a `chan int` field, for which no SQL type is inferred. -/
def chanValue : reflect.Value := reflect.Value.mk reflect.Kind.Chan "" false false false

/-! ## The specification's reading of a pagination argument -/

/-- The specification's reading of one argument of the baseline pagination: the
integer `n` it stands for when the argument is non-nil and parses, without error,
to an integer `n ≥ 0`; nothing otherwise. -/
def parsedNonNegative (v : GoValue) : Option Int :=
  match v with
  | GoValue.null => none
  | v =>
    match strconv.ParseInt (fmt.Sprint v) 0 0 with
    | (n, none) => if 0 ≤ n then some n else none
    | (_, some _) => none

/-- The clause the specification attaches to an argument: the keyword and the
number, or nothing. -/
def clauseFor (keyword : String) (v : GoValue) : String :=
  match parsedNonNegative v with
  | some n => keyword ++ fmt.formatInt n
  | none => ""

/-! ## Reading back a printed integer -/

section Roundtrip

open strconv

theorem digitOf_digitChar {d : Nat} (hd : d < 10) : digitOf (Nat.digitChar d) = some d := by
  interval_cases d <;> decide

theorem digitChar_not_special {d : Nat} (hd : d < 10) :
    Nat.digitChar d ≠ '_' ∧ Nat.digitChar d ≠ '+' ∧ Nat.digitChar d ≠ '-' ∧
      (0 < d → Nat.digitChar d ≠ '0') := by
  interval_cases d <;> decide

/-- One decimal digit read by the loop of `ParseUint`, when nothing overflows. -/
theorem ParseUint_loop_digit (base0 : Bool) (cutoff maxVal : Nat) (d n : Nat) (cs : List Char)
    (us : Bool) (hd : d < 10) (hcut : n < cutoff) (hmax : n * 10 + d ≤ maxVal)
    (h64 : maxVal < 18446744073709551616) :
    ParseUint.loop 10 base0 cutoff maxVal (Nat.digitChar d :: cs) n us =
      ParseUint.loop 10 base0 cutoff maxVal cs (n * 10 + d) us := by
  rw [ParseUint.loop]
  have h1 := (digitChar_not_special hd).1
  simp only [h1, false_and, if_false, digitOf_digitChar hd]
  have h2 : ¬ d ≥ 10 := by omega
  have h3 : ¬ n ≥ cutoff := by omega
  have h4 : n * 10 % 18446744073709551616 = n * 10 := Nat.mod_eq_of_lt (by omega)
  have h5 : (n * 10 + d) % 18446744073709551616 = n * 10 + d := Nat.mod_eq_of_lt (by omega)
  have h6 : ¬ (n * 10 + d < n * 10 ∨ n * 10 + d > maxVal) := by omega
  simp only [h2, h3, h4, h5, h6, if_false]

/-- The loop of `ParseUint` reads the digits `Nat.toDigitsCore` writes in front
of `acc` as the number they were written from. -/
theorem ParseUint_loop_toDigitsCore (base0 : Bool) (fuel : Nat) :
    ∀ (n : Nat) (acc : List Char) (us : Bool), n < fuel → n ≤ 18446744073709551615 →
      ParseUint.loop 10 base0 1844674407370955162 18446744073709551615
          (Nat.toDigitsCore 10 fuel n acc) 0 us =
        ParseUint.loop 10 base0 1844674407370955162 18446744073709551615 acc n us := by
  induction fuel with
  | zero => intro n acc us h; exact absurd h (Nat.not_lt_zero _)
  | succ fuel ih =>
    intro n acc us hn hmax
    rw [Nat.toDigitsCore]
    have hmod : n % 10 < 10 := Nat.mod_lt _ (by decide)
    by_cases h10 : n / 10 = 0
    · simp only [h10, if_true]
      have hlt : n < 10 := by omega
      rw [ParseUint_loop_digit base0 _ _ (n % 10) 0 acc us hmod (by decide) (by omega) (by decide)]
      congr 1
      omega
    · simp only [h10, if_false]
      rw [ih (n / 10) _ us (by omega) (by omega),
        ParseUint_loop_digit base0 _ _ (n % 10) (n / 10) acc us hmod (by omega) (by omega)
          (by decide)]
      congr 1
      omega

/-- The first digit `Nat.toDigitsCore` writes for a positive number is not zero. -/
theorem toDigitsCore_head (fuel : Nat) :
    ∀ (n : Nat) (acc : List Char), n < fuel → 0 < n →
      ∃ d rest, 0 < d ∧ d < 10 ∧ Nat.toDigitsCore 10 fuel n acc = Nat.digitChar d :: rest := by
  induction fuel with
  | zero => intro n acc h; exact absurd h (Nat.not_lt_zero _)
  | succ fuel ih =>
    intro n acc hn hpos
    rw [Nat.toDigitsCore]
    by_cases h10 : n / 10 = 0
    · simp only [h10, if_true]
      exact ⟨n % 10, acc, by omega, by omega, rfl⟩
    · simp only [h10, if_false]
      exact ih (n / 10) _ (by omega) (by omega)

/-- The number `ParseUint` reads, in base 0, from the decimal digits of `n`. -/
theorem ParseUint_toDigits (n : Nat) (hn : n ≤ 18446744073709551615) :
    ParseUint (Nat.toDigits 10 n) 0 0 = (n, none) := by
  rcases Nat.eq_zero_or_pos n with rfl | hpos
  · decide
  · obtain ⟨d, rest, hd0, hd10, hds⟩ := toDigitsCore_head (n + 1) n [] (by omega) hpos
    have hloop := ParseUint_loop_toDigitsCore true (n + 1) n [] false (by omega) hn
    have hz := (digitChar_not_special hd10).2.2.2 hd0
    unfold Nat.toDigits
    rw [hds] at hloop ⊢
    have hsel : ParseUint.selectBase (Nat.digitChar d :: rest) 0 =
        some (10, Nat.digitChar d :: rest) := by
      simp [ParseUint.selectBase, hz]
    have e1 : 18446744073709551615 / 10 + 1 = 1844674407370955162 := by norm_num
    have e2 : 2 ^ 64 - 1 = 18446744073709551615 := by norm_num
    simp only [ParseUint, hsel, e1]
    simp only [reduceCtorEq, if_false, gt_iff_lt, Nat.not_lt_zero, if_true, decide_True,
      Nat.lt_irrefl]
    rw [e2, hloop]
    simp [ParseUint.loop]

/-- The decimal digits of a positive number start with none of the characters
`ParseInt` treats as a sign. -/
theorem toDigits_head_not_sign (m : Nat) :
    (Nat.toDigits 10 m).headD ' ' ≠ '+' ∧ (Nat.toDigits 10 m).headD ' ' ≠ '-' ∧
      Nat.toDigits 10 m ≠ [] := by
  rcases Nat.eq_zero_or_pos m with rfl | hpos
  · decide
  · obtain ⟨d, rest, _, hd10, hds⟩ := toDigitsCore_head (m + 1) m [] (by omega) hpos
    have hsp := digitChar_not_special hd10
    have hds2 : Nat.toDigits 10 m = Nat.digitChar d :: rest := hds
    rw [hds2]
    exact ⟨hsp.2.1, hsp.2.2.1, by simp⟩

/-- The number `ParseInt` reads, in base 0, from a printed `int64`: the number itself. -/
theorem ParseInt_formatInt (i : Int) (hi : IsInt64 i) :
    ParseInt (fmt.formatInt i) 0 0 = (i, none) := by
  obtain ⟨hlo, hhi⟩ := hi
  obtain ⟨hplus, hminus, hnil⟩ := toDigits_head_not_sign i.natAbs
  have hu := ParseUint_toDigits i.natAbs (by omega)
  have e3 : (2 : Nat) ^ (64 - 1) = 9223372036854775808 := by norm_num
  by_cases hneg : i < 0
  · have hdata : (fmt.formatInt i).data = '-' :: Nat.toDigits 10 i.natAbs := by
      simp [fmt.formatInt, hneg, Nat.repr, List.asString]
    have hle : ¬ i.natAbs > 9223372036854775808 := by omega
    have hcast : ((i.natAbs : Nat) : Int) = -i := by omega
    simp only [ParseInt, hdata, List.headD_cons, List.drop_succ_cons, List.drop_zero, hu, e3]
    simp only [reduceCtorEq, if_false, if_true, decide_True, ne_eq, not_true_eq_false,
      false_and, and_false, true_and, hle, Char.reduceEq, not_false_eq_true, hu, e3]
    rw [hcast]
    simp only [wrapInt64, Prod.mk.injEq, and_true]
    omega
  · have hdata : (fmt.formatInt i).data = Nat.toDigits 10 i.natAbs := by
      simp [fmt.formatInt, hneg, Nat.repr, List.asString]
    have hle : ¬ i.natAbs ≥ 9223372036854775808 := by omega
    have hcast : ((i.natAbs : Nat) : Int) = i := by omega
    simp only [ParseInt, hdata, hplus, hminus, hnil, hu, e3]
    simp only [reduceCtorEq, if_false, if_true, decide_False, ne_eq, not_true_eq_false,
      false_and, and_false, true_and, hle, not_false_eq_true, hu, e3]
    rw [hcast]
    simp only [wrapInt64, Prod.mk.injEq, and_true]
    omega

end Roundtrip

/-! ## Pagination: the baseline dialect -/

theorem clauseFor_eq (keyword : String) (v : GoValue) (hv : v ≠ GoValue.null) :
    clauseFor keyword v =
      if (strconv.ParseInt (fmt.Sprint v) 0 0).2 = none ∧ (strconv.ParseInt (fmt.Sprint v) 0 0).1 ≥ 0
      then keyword ++ fmt.formatInt (strconv.ParseInt (fmt.Sprint v) 0 0).1 else "" := by
  unfold clauseFor parsedNonNegative
  cases v with
  | null => exact absurd rfl hv
  | int i =>
    simp only
    rcases h : strconv.ParseInt (fmt.Sprint (GoValue.int i)) 0 0 with ⟨n, _ | e⟩
    · by_cases hn : 0 ≤ n <;> simp [hn]
    · simp
  | str t =>
    simp only
    rcases h : strconv.ParseInt (fmt.Sprint (GoValue.str t)) 0 0 with ⟨n, _ | e⟩
    · by_cases hn : 0 ≤ n <;> simp [hn]
    · simp

/-- C1: the baseline `LimitAndOffsetSQL` is, for every limit and offset, the
clause `" LIMIT n"` of the limit followed by the clause `" OFFSET m"` of the
offset, where an argument has a clause exactly when it is non-nil and parses to
an integer that is not negative; each argument is read on its own.  An integer
`n ≥ 0` is read as `n`, a negative integer is left out.  On `(5, nil)` the result
is `" LIMIT 5"`, on `(5, 10)` it is `" LIMIT 5 OFFSET 10"`, on `(-1, nil)` and
on the limit `"abc"`, which is no number, it is empty. -/
theorem common_LimitAndOffsetSQL_clauses :
    (∀ limit offset : GoValue,
      commonDialect.LimitAndOffsetSQL limit offset =
        clauseFor " LIMIT " limit ++ clauseFor " OFFSET " offset) ∧
    (∀ n : Int, IsInt64 n → 0 ≤ n → parsedNonNegative (GoValue.int n) = some n) ∧
    (∀ n : Int, IsInt64 n → n < 0 → parsedNonNegative (GoValue.int n) = none) ∧
    parsedNonNegative GoValue.null = none ∧
    commonDialect.LimitAndOffsetSQL (GoValue.int 5) GoValue.null = " LIMIT 5" ∧
    commonDialect.LimitAndOffsetSQL (GoValue.int 5) (GoValue.int 10) = " LIMIT 5 OFFSET 10" ∧
    commonDialect.LimitAndOffsetSQL (GoValue.int (-1)) GoValue.null = "" ∧
    commonDialect.LimitAndOffsetSQL (GoValue.str "abc") GoValue.null = "" := by
  refine ⟨?_, ?_, ?_, rfl, by decide, by decide, by decide, by decide⟩
  · intro limit offset
    unfold commonDialect.LimitAndOffsetSQL
    by_cases hl : limit = GoValue.null <;> by_cases ho : offset = GoValue.null
    · subst hl; subst ho; rfl
    · subst hl
      rw [clauseFor_eq _ offset ho]
      simp [ho, clauseFor, parsedNonNegative]
    · subst ho
      rw [clauseFor_eq _ limit hl]
      simp [hl, clauseFor, parsedNonNegative]
    · rw [clauseFor_eq _ limit hl, clauseFor_eq _ offset ho]
      simp only [hl, ho, ne_eq, not_false_eq_true, if_true]
      split_ifs <;> simp
  · intro n hn h0
    simp only [parsedNonNegative, fmt.Sprint, ParseInt_formatInt n hn, h0, if_true]
  · intro n hn h0
    have : ¬ 0 ≤ n := by omega
    simp only [parsedNonNegative, fmt.Sprint, ParseInt_formatInt n hn, this, if_false]

/-- The hypotheses of C1 hold at the limit 5. -/
theorem common_LimitAndOffsetSQL_clauses_witness :
    parsedNonNegative (GoValue.int 5) = some 5 ∧ parsedNonNegative (GoValue.int (-1)) = none :=
  ⟨common_LimitAndOffsetSQL_clauses.2.1 5 (by decide) (by decide),
    common_LimitAndOffsetSQL_clauses.2.2.1 (-1) (by decide) (by decide)⟩

/-! ## Pagination: the Firebird dialect -/

/-- C2: with an integer limit `l > 0` and an integer offset `o > 0` whose sum
does not overflow `int64`, the Firebird `LimitAndOffsetSQL` is
`" ROWS a TO b"` with `a = o + 1` and `b = o + l`: the range starts after the
first `o` rows and holds `l` rows. -/
theorem firebird_LimitAndOffsetSQL_both (l o : Int) (hl : 0 < l) (ho : 0 < o)
    (hsum : o + l ≤ 9223372036854775807) :
    firebirdsql.LimitAndOffsetSQL (GoValue.int l) (GoValue.int o) =
        " ROWS " ++ fmt.formatInt (o + 1) ++ " TO " ++ fmt.formatInt (o + l) ∧
      (o + l) - (o + 1) + 1 = l := by
  have hpl := ParseInt_formatInt l ⟨by omega, by omega⟩
  have hpo := ParseInt_formatInt o ⟨by omega, by omega⟩
  have ha : wrapInt64 (o + 1) = o + 1 := by unfold wrapInt64; omega
  have hb : wrapInt64 (wrapInt64 (l + (o + 1)) - 1) = o + l := by unfold wrapInt64; omega
  have hapos : o + 1 > 0 := by omega
  have hbpos : o + l > 0 := by omega
  refine ⟨?_, by omega⟩
  simp only [firebirdsql.LimitAndOffsetSQL, fmt.Sprint, hpl, hpo, ha, hb, hl, ho, hapos, hbpos,
    gt_iff_lt, and_self, if_true, ne_eq, reduceCtorEq, not_false_eq_true, false_and, if_false,
    true_and, String.empty_append]

/-- The hypotheses of C2 hold at limit 5 and offset 10, where the range is rows
11 through 15. -/
theorem firebird_LimitAndOffsetSQL_both_witness :
    firebirdsql.LimitAndOffsetSQL (GoValue.int 5) (GoValue.int 10) = " ROWS 11 TO 15" :=
  (firebird_LimitAndOffsetSQL_both 5 10 (by decide) (by decide) (by decide)).1

/-- C3, as stated, fails at the largest `int64`: adding one to the offset wraps
around to a negative number, and the clause is `" ROWS 0"`, not a range that ends
at 10000. -/
theorem firebird_LimitAndOffsetSQL_offset_only_counterexample :
    firebirdsql.LimitAndOffsetSQL GoValue.null (GoValue.int 9223372036854775807) = " ROWS 0" ∧
      firebirdsql.LimitAndOffsetSQL GoValue.null (GoValue.int 9223372036854775807) ≠
        " ROWS " ++ fmt.formatInt (9223372036854775807 + 1) ++ " TO 10000" := by
  decide

/-- C3, amended: with a nil limit and an integer offset `o` such that `0 < o` and
`o + 1` does not overflow `int64`, the Firebird `LimitAndOffsetSQL` is
`" ROWS a TO 10000"` with `a = o + 1`. -/
theorem firebird_LimitAndOffsetSQL_offset_only (o : Int) (ho : 0 < o)
    (hmax : o < 9223372036854775807) :
    firebirdsql.LimitAndOffsetSQL GoValue.null (GoValue.int o) =
      " ROWS " ++ fmt.formatInt (o + 1) ++ " TO 10000" := by
  have hpo := ParseInt_formatInt o ⟨by omega, by omega⟩
  have ha : wrapInt64 (o + 1) = o + 1 := by unfold wrapInt64; omega
  have hapos : o + 1 > 0 := by omega
  have h10000 : fmt.formatInt 10000 = "10000" := by decide
  simp only [firebirdsql.LimitAndOffsetSQL, fmt.Sprint, hpo, ha, ho, hapos, h10000,
    gt_iff_lt, and_self, if_true, ne_eq, reduceCtorEq, not_false_eq_true, false_and, if_false,
    true_and, String.empty_append, not_true_eq_false, Int.lt_irrefl, and_false]
  rw [String.append_assoc]
  rfl

/-- The hypotheses of the amended C3 hold at offset 10, where the range is rows
11 through 10000. -/
theorem firebird_LimitAndOffsetSQL_offset_only_witness :
    firebirdsql.LimitAndOffsetSQL GoValue.null (GoValue.int 10) = " ROWS 11 TO 10000" :=
  firebird_LimitAndOffsetSQL_offset_only 10 (by decide) (by decide)

/-- C4, as stated, fails at limit 5: the clause is `" ROWS 5"`, which names no
start row, and not the range `" ROWS 0 TO 5"`. -/
theorem firebird_LimitAndOffsetSQL_limit_only_counterexample :
    firebirdsql.LimitAndOffsetSQL (GoValue.int 5) GoValue.null = " ROWS 5" ∧
      firebirdsql.LimitAndOffsetSQL (GoValue.int 5) GoValue.null ≠
        " ROWS " ++ fmt.formatInt 0 ++ " TO " ++ fmt.formatInt 5 := by
  decide

/-- C4, amended: with a nil offset and an integer limit `l > 0`, the Firebird
`LimitAndOffsetSQL` is `" ROWS l"`: the clause names the end row `l` alone, and
no start row. -/
theorem firebird_LimitAndOffsetSQL_limit_only (l : Int) (hl : 0 < l)
    (hmax : l ≤ 9223372036854775807) :
    firebirdsql.LimitAndOffsetSQL (GoValue.int l) GoValue.null =
      " ROWS " ++ fmt.formatInt l := by
  have hpl := ParseInt_formatInt l ⟨by omega, by omega⟩
  have hge : l ≥ 0 := by omega
  simp only [firebirdsql.LimitAndOffsetSQL, fmt.Sprint, hpl, hl, hge,
    gt_iff_lt, and_self, if_true, ne_eq, reduceCtorEq, not_false_eq_true, false_and, if_false,
    true_and, String.empty_append, not_true_eq_false, Int.lt_irrefl, and_false]

/-- The hypotheses of the amended C4 hold at limit 5, where the clause is
`" ROWS 5"`. -/
theorem firebird_LimitAndOffsetSQL_limit_only_witness :
    firebirdsql.LimitAndOffsetSQL (GoValue.int 5) GoValue.null = " ROWS 5" :=
  firebird_LimitAndOffsetSQL_limit_only 5 (by decide) (by decide)

/-- C5: with a nil limit and a nil offset, `LimitAndOffsetSQL` is the empty
string in the baseline dialect and in the Firebird dialect. -/
theorem LimitAndOffsetSQL_nil_nil :
    commonDialect.LimitAndOffsetSQL GoValue.null GoValue.null = "" ∧
      firebirdsql.LimitAndOffsetSQL GoValue.null GoValue.null = "" :=
  ⟨rfl, rfl⟩

/-! ## Column types -/

theorem append_ne_empty (a b : String) (ha : a ≠ "") : a ++ b ≠ "" := by
  intro h
  apply ha
  have hd := congrArg String.data h
  rw [String.data_append] at hd
  have hnil : a.data = [] := (List.append_eq_nil.mp hd).1
  exact String.ext hnil

theorem appendAdditionalType_blank (t a : String) (h : strings.TrimSpace a = "") :
    appendAdditionalType t a = t := by
  simp [appendAdditionalType, h]

theorem appendAdditionalType_nonblank (t a : String) (h : strings.TrimSpace a ≠ "") :
    appendAdditionalType t a = t ++ " " ++ a := by
  simp [appendAdditionalType, h]

/-- C6: in the baseline dialect, a string field and a `[]byte` field without an
explicit type and with a blank additional type get `VARCHAR(s)`, respectively
`BINARY(s)`, with the size hint `s` in decimal when `0 < s < 65532`, and
`VARCHAR(65532)`, respectively `BINARY(65532)`, when `s ≤ 0` or `s ≥ 65532`. -/
theorem common_DataTypeOf_size_rule (field : StructField) (parsed : ParsedField)
    (hov : parsed.sqlType = "") (hblank : strings.TrimSpace parsed.additionalType = "") :
    (parsed.dataValue.kind = reflect.Kind.String →
      (0 < parsed.size ∧ parsed.size < 65532 →
        commonDialect.DataTypeOf field parsed =
          Except.ok ("VARCHAR(" ++ fmt.formatInt parsed.size ++ ")")) ∧
      (parsed.size ≤ 0 ∨ parsed.size ≥ 65532 →
        commonDialect.DataTypeOf field parsed = Except.ok "VARCHAR(65532)")) ∧
    (parsed.dataValue.WellFormed → parsed.dataValue.isByteSlice = true →
      (0 < parsed.size ∧ parsed.size < 65532 →
        commonDialect.DataTypeOf field parsed =
          Except.ok ("BINARY(" ++ fmt.formatInt parsed.size ++ ")")) ∧
      (parsed.size ≤ 0 ∨ parsed.size ≥ 65532 →
        commonDialect.DataTypeOf field parsed = Except.ok "BINARY(65532)")) := by
  refine ⟨fun hk => ⟨fun hs => ?_, fun hs => ?_⟩, fun hwf hb => ⟨fun hs => ?_, fun hs => ?_⟩⟩
  · have hne : "VARCHAR(" ++ fmt.formatInt parsed.size ++ ")" ≠ "" := by
      rw [String.append_assoc]
      exact append_ne_empty _ _ (by decide)
    have hs2 : parsed.size > 0 ∧ parsed.size < 65532 := hs
    simp only [commonDialect.DataTypeOf, hov, if_true, commonDialect.inferType, hk, hs2, and_self,
      hne, if_false, appendAdditionalType_blank _ _ hblank]
  · have hs2 : ¬ (parsed.size > 0 ∧ parsed.size < 65532) := by omega
    have hne : ("VARCHAR(65532)" : String) ≠ "" := by decide
    simp only [commonDialect.DataTypeOf, hov, if_true, commonDialect.inferType, hk, hs2,
      hne, if_false, appendAdditionalType_blank _ _ hblank]
  · have hk : parsed.dataValue.kind = reflect.Kind.Slice := (hwf.2 hb).1
    have hne : "BINARY(" ++ fmt.formatInt parsed.size ++ ")" ≠ "" := by
      rw [String.append_assoc]
      exact append_ne_empty _ _ (by decide)
    have hs2 : parsed.size > 0 ∧ parsed.size < 65532 := hs
    simp only [commonDialect.DataTypeOf, hov, if_true, commonDialect.inferType, hk, hb, hs2,
      and_self, hne, if_false, appendAdditionalType_blank _ _ hblank]
  · have hk : parsed.dataValue.kind = reflect.Kind.Slice := (hwf.2 hb).1
    have hs2 : ¬ (parsed.size > 0 ∧ parsed.size < 65532) := by omega
    have hne : ("BINARY(65532)" : String) ≠ "" := by decide
    simp only [commonDialect.DataTypeOf, hov, if_true, commonDialect.inferType, hk, hb, hs2,
      hne, if_false, appendAdditionalType_blank _ _ hblank]

/-- The hypotheses of C6 hold for a string field of size 255, which gets
`VARCHAR(255)`, and for a `[]byte` field of size 70000, which gets
`BINARY(65532)`. -/
theorem common_DataTypeOf_size_rule_witness :
    commonDialect.DataTypeOf plainField (ParsedField.mk stringValue "" 255 " ") =
        Except.ok "VARCHAR(255)" ∧
      commonDialect.DataTypeOf plainField (ParsedField.mk byteSliceValue "" 70000 "") =
        Except.ok "BINARY(65532)" :=
  ⟨((common_DataTypeOf_size_rule plainField (ParsedField.mk stringValue "" 255 " ") rfl
      (by decide)).1 rfl).1 (by decide),
    ((common_DataTypeOf_size_rule plainField (ParsedField.mk byteSliceValue "" 70000 "") rfl
      (by decide)).2 (by decide) rfl).2 (by decide)⟩

/-- C7: the Firebird `DataTypeOf` has no type for a string field whose size hint
is not strictly between 0 and 32765: with the size hints 32765 and 0 it panics,
where the baseline dialect returns its largest `VARCHAR`; a size hint in between
gives `VARCHAR(s)`. -/
theorem firebird_DataTypeOf_string_out_of_range :
    firebirdsql.DataTypeOf plainField (ParsedField.mk stringValue "" 32765 "") =
        Except.error "invalid sql type string (string) in field F for firebirdsql" ∧
      firebirdsql.DataTypeOf plainField (ParsedField.mk stringValue "" 0 "") =
        Except.error "invalid sql type string (string) in field F for firebirdsql" ∧
      firebirdsql.DataTypeOf plainField (ParsedField.mk stringValue "" 32764 "") =
        Except.ok "VARCHAR(32764)" ∧
      commonDialect.DataTypeOf plainField (ParsedField.mk stringValue "" 32765 "") =
        Except.ok "VARCHAR(32765)" ∧
      commonDialect.DataTypeOf plainField (ParsedField.mk stringValue "" 0 "") =
        Except.ok "VARCHAR(65532)" := by
  decide

/-- C8, as stated, fails: a `[]byte` field with the size hint 10 gets `BLOB`, the
same type as with the size hint 11, so no type that carries the size; and with
the size hint 0 the Firebird `DataTypeOf` panics instead of returning `BLOB`. -/
theorem firebird_DataTypeOf_bytes_counterexample :
    firebirdsql.DataTypeOf plainField (ParsedField.mk byteSliceValue "" 10 "") =
        Except.ok "BLOB" ∧
      firebirdsql.DataTypeOf plainField (ParsedField.mk byteSliceValue "" 11 "") =
        Except.ok "BLOB" ∧
      firebirdsql.DataTypeOf plainField (ParsedField.mk byteSliceValue "" 0 "") ≠
        Except.ok "BLOB" := by
  decide

/-- C8, amended: for a byte array or byte slice field without an explicit type
whose size hint `s` satisfies `0 < s < 65532`, the Firebird `DataTypeOf` succeeds
with the large binary type `BLOB`, whatever `s` is (followed by the additional
type when that is not blank). -/
theorem firebird_DataTypeOf_bytes (field : StructField) (parsed : ParsedField)
    (hov : parsed.sqlType = "") (hbytes : IsByteArrayOrSlice parsed.dataValue = true)
    (hs : 0 < parsed.size ∧ parsed.size < 65532) :
    firebirdsql.DataTypeOf field parsed =
      Except.ok (if strings.TrimSpace parsed.additionalType = "" then "BLOB"
        else "BLOB" ++ " " ++ parsed.additionalType) := by
  have hs2 : parsed.size > 0 ∧ parsed.size < 65532 := hs
  have hne : ("BLOB" : String) ≠ "" := by decide
  have hk : parsed.dataValue.kind = reflect.Kind.Array ∨
      parsed.dataValue.kind = reflect.Kind.Slice := by
    simp only [IsByteArrayOrSlice, Bool.and_eq_true, Bool.or_eq_true, decide_eq_true_eq] at hbytes
    exact hbytes.1
  rcases hk with hk | hk <;>
    simp only [firebirdsql.DataTypeOf, hov, if_true, firebirdsql.inferType, hk, hbytes, hs2,
      and_self, hne, if_false, appendAdditionalType]

/-- The hypotheses of the amended C8 hold for a `[]byte` field of size 255 with
the additional type `NOT NULL`. -/
theorem firebird_DataTypeOf_bytes_witness :
    firebirdsql.DataTypeOf plainField (ParsedField.mk byteSliceValue "" 255 "NOT NULL") =
      Except.ok "BLOB NOT NULL" :=
  firebird_DataTypeOf_bytes plainField (ParsedField.mk byteSliceValue "" 255 "NOT NULL") rfl
    (by decide) (by decide)

/-- C9: when the explicit SQL type `t` of a field is not empty, both `DataTypeOf`
succeed, whatever the kind, the size hint, the primary key flag and the tag
settings are: with `t` itself when the additional type is blank, and with `t`, a
space and the additional type otherwise. -/
theorem DataTypeOf_explicit_type (field : StructField) (parsed : ParsedField)
    (ht : parsed.sqlType ≠ "") :
    (strings.TrimSpace parsed.additionalType = "" →
      commonDialect.DataTypeOf field parsed = Except.ok parsed.sqlType ∧
      firebirdsql.DataTypeOf field parsed = Except.ok parsed.sqlType) ∧
    (strings.TrimSpace parsed.additionalType ≠ "" →
      commonDialect.DataTypeOf field parsed =
        Except.ok (parsed.sqlType ++ " " ++ parsed.additionalType) ∧
      firebirdsql.DataTypeOf field parsed =
        Except.ok (parsed.sqlType ++ " " ++ parsed.additionalType)) := by
  refine ⟨fun hb => ⟨?_, ?_⟩, fun hb => ⟨?_, ?_⟩⟩
  · simp only [commonDialect.DataTypeOf, ht, if_false, appendAdditionalType_blank _ _ hb]
  · simp only [firebirdsql.DataTypeOf, ht, if_false, appendAdditionalType_blank _ _ hb]
  · simp only [commonDialect.DataTypeOf, ht, if_false, appendAdditionalType_nonblank _ _ hb]
  · simp only [firebirdsql.DataTypeOf, ht, if_false, appendAdditionalType_nonblank _ _ hb]

/-- The hypothesis of C9 holds for a `chan` field, for which nothing is inferred,
with the explicit type `jsonb`. -/
theorem DataTypeOf_explicit_type_witness :
    (commonDialect.DataTypeOf plainField (ParsedField.mk chanValue "jsonb" 0 " ") =
        Except.ok "jsonb" ∧
      firebirdsql.DataTypeOf plainField (ParsedField.mk chanValue "jsonb" 0 " ") =
        Except.ok "jsonb") ∧
    (commonDialect.DataTypeOf plainField (ParsedField.mk chanValue "jsonb" 0 "NOT NULL") =
        Except.ok "jsonb NOT NULL" ∧
      firebirdsql.DataTypeOf plainField (ParsedField.mk chanValue "jsonb" 0 "NOT NULL") =
        Except.ok "jsonb NOT NULL") :=
  ⟨(DataTypeOf_explicit_type plainField (ParsedField.mk chanValue "jsonb" 0 " ")
      (by decide)).1 (by decide),
    (DataTypeOf_explicit_type plainField (ParsedField.mk chanValue "jsonb" 0 "NOT NULL")
      (by decide)).2 (by decide)⟩

/-- C10, as stated, fails: with the additional type `"NOT NULL "` a `bool` field
gets `"BOOLEAN NOT NULL "` in the baseline dialect, with the trailing space of
the additional type, and not the type followed by the trimmed additional type. -/
theorem DataTypeOf_additional_type_counterexample :
    commonDialect.DataTypeOf plainField (ParsedField.mk boolValue "" 0 "NOT NULL ") =
        Except.ok "BOOLEAN NOT NULL " ∧
      commonDialect.DataTypeOf plainField (ParsedField.mk boolValue "" 0 "NOT NULL ") ≠
        Except.ok ("BOOLEAN" ++ " " ++ strings.TrimSpace "NOT NULL ") ∧
      firebirdsql.DataTypeOf plainField (ParsedField.mk boolValue "" 0 "NOT NULL ") ≠
        Except.ok ("SMALLINT" ++ " " ++ strings.TrimSpace "NOT NULL ") := by
  decide

/-- C10, amended: whenever `DataTypeOf` succeeds, in either dialect, its result
is the type `T` (the explicit type when there is one, the inferred type
otherwise) when the additional type `A` is blank, and otherwise `T`, one space
and `A` as it is, not trimmed. -/
theorem DataTypeOf_additional_type (field : StructField) (parsed : ParsedField) (r : String) :
    (commonDialect.DataTypeOf field parsed = Except.ok r →
      (strings.TrimSpace parsed.additionalType = "" →
        r = (if parsed.sqlType = "" then
          commonDialect.inferType field parsed.dataValue parsed.size else parsed.sqlType)) ∧
      (strings.TrimSpace parsed.additionalType ≠ "" →
        r = (if parsed.sqlType = "" then
          commonDialect.inferType field parsed.dataValue parsed.size else parsed.sqlType) ++
            " " ++ parsed.additionalType)) ∧
    (firebirdsql.DataTypeOf field parsed = Except.ok r →
      (strings.TrimSpace parsed.additionalType = "" →
        r = (if parsed.sqlType = "" then
          firebirdsql.inferType field parsed.dataValue parsed.size else parsed.sqlType)) ∧
      (strings.TrimSpace parsed.additionalType ≠ "" →
        r = (if parsed.sqlType = "" then
          firebirdsql.inferType field parsed.dataValue parsed.size else parsed.sqlType) ++
            " " ++ parsed.additionalType)) := by
  constructor
  · intro h
    simp only [commonDialect.DataTypeOf] at h
    generalize (if parsed.sqlType = "" then
      commonDialect.inferType field parsed.dataValue parsed.size else parsed.sqlType) = T at h ⊢
    by_cases hT : T = ""
    · simp [hT] at h
    · simp only [hT, if_false, Except.ok.injEq] at h
      subst h
      exact ⟨fun hb => appendAdditionalType_blank _ _ hb,
        fun hb => appendAdditionalType_nonblank _ _ hb⟩
  · intro h
    simp only [firebirdsql.DataTypeOf] at h
    generalize (if parsed.sqlType = "" then
      firebirdsql.inferType field parsed.dataValue parsed.size else parsed.sqlType) = T at h ⊢
    by_cases hT : T = ""
    · simp [hT] at h
    · simp only [hT, if_false, Except.ok.injEq] at h
      subst h
      exact ⟨fun hb => appendAdditionalType_blank _ _ hb,
        fun hb => appendAdditionalType_nonblank _ _ hb⟩

/-- The hypothesis of the amended C10 holds for a `bool` field with the
additional type `"NOT NULL "`, in both dialects: the result ends with the
space the additional type ends with. -/
theorem DataTypeOf_additional_type_witness :
    (commonDialect.DataTypeOf plainField (ParsedField.mk boolValue "" 0 "NOT NULL ") =
        Except.ok "BOOLEAN NOT NULL " ∧
      "BOOLEAN NOT NULL " = commonDialect.inferType plainField boolValue 0 ++ " " ++ "NOT NULL ") ∧
    (firebirdsql.DataTypeOf plainField (ParsedField.mk boolValue "" 0 "NOT NULL ") =
        Except.ok "SMALLINT NOT NULL " ∧
      "SMALLINT NOT NULL " = firebirdsql.inferType plainField boolValue 0 ++ " " ++ "NOT NULL ") :=
  ⟨⟨by decide,
    ((DataTypeOf_additional_type plainField (ParsedField.mk boolValue "" 0 "NOT NULL ")
      "BOOLEAN NOT NULL ").1 (by decide)).2 (by decide)⟩,
    ⟨by decide,
    ((DataTypeOf_additional_type plainField (ParsedField.mk boolValue "" 0 "NOT NULL ")
      "SMALLINT NOT NULL ").2 (by decide)).2 (by decide)⟩⟩


/-! ## Key names -/

theorem hasDoubleUnderscore_cons (a : Char) (l : List Char) :
    hasDoubleUnderscore (a :: l) =
      ((decide (a = '_') && decide (l.head? = some '_')) || hasDoubleUnderscore l) := by
  cases l with
  | nil => simp [hasDoubleUnderscore]
  | cons b rest => simp [hasDoubleUnderscore]

theorem isKeyNameLetter_ne_underscore (c : Char) (h : isKeyNameLetter c = true) : c ≠ '_' := by
  intro hc
  subst hc
  exact absurd h (by decide)

/-- Inside a run, the scan does not start its output with an underscore. -/
theorem replaceRuns_head (cs : List Char) :
    (keyNameRegex.replaceRuns true cs).head? ≠ some '_' := by
  induction cs with
  | nil => simp [keyNameRegex.replaceRuns]
  | cons c cs ih =>
    by_cases hc : isKeyNameLetter c = true
    · have hne := isKeyNameLetter_ne_underscore c hc
      simp [keyNameRegex.replaceRuns, hc, hne]
    · simpa [keyNameRegex.replaceRuns, hc] using ih

/-- The scan writes only letters, digits and underscores. -/
theorem replaceRuns_chars (cs : List Char) :
    ∀ (inRun : Bool), ∀ c ∈ keyNameRegex.replaceRuns inRun cs, isKeyNameChar c = true := by
  induction cs with
  | nil => intro inRun c hc; simp [keyNameRegex.replaceRuns] at hc
  | cons a cs ih =>
    intro inRun c hc
    by_cases ha : isKeyNameLetter a = true
    · simp only [keyNameRegex.replaceRuns, ha, if_true, List.mem_cons] at hc
      rcases hc with rfl | hc
      · simp [isKeyNameChar, ha]
      · exact ih false c hc
    · cases inRun with
      | true =>
        simp only [keyNameRegex.replaceRuns, ha, if_true, Bool.false_eq_true, if_false] at hc
        exact ih true c hc
      | false =>
        simp only [keyNameRegex.replaceRuns, ha, Bool.false_eq_true, if_false,
          List.mem_cons] at hc
        rcases hc with rfl | hc
        · decide
        · exact ih true c hc

/-- The scan never writes two underscores in a row. -/
theorem replaceRuns_no_double (cs : List Char) :
    ∀ (inRun : Bool), hasDoubleUnderscore (keyNameRegex.replaceRuns inRun cs) = false := by
  induction cs with
  | nil => intro inRun; simp [keyNameRegex.replaceRuns, hasDoubleUnderscore]
  | cons a cs ih =>
    intro inRun
    by_cases ha : isKeyNameLetter a = true
    · have hne := isKeyNameLetter_ne_underscore a ha
      simp [keyNameRegex.replaceRuns, ha, hasDoubleUnderscore_cons, hne, ih false]
    · cases inRun with
      | true => simpa [keyNameRegex.replaceRuns, ha] using ih true
      | false =>
        have hh := replaceRuns_head cs
        simp [keyNameRegex.replaceRuns, ha, hasDoubleUnderscore_cons, hh, ih true]

theorem upperChar_eq_underscore (c : Char) : strings.upperChar c = '_' ↔ c = '_' := by
  unfold strings.upperChar
  by_cases h : 97 ≤ c.toNat ∧ c.toNat ≤ 122
  · simp only [h, and_self, if_true]
    have hne : c ≠ '_' := by
      intro hc; subst hc; exact absurd h (by decide)
    simp only [hne, iff_false]
    obtain ⟨h1, h2⟩ := h
    generalize c.toNat = n at h1 h2
    interval_cases n <;> decide
  · simp only [h, if_false]

theorem upperChar_keyNameChar (c : Char) (h : isKeyNameChar c = true) :
    isUpperKeyNameChar (strings.upperChar c) = true := by
  unfold strings.upperChar
  by_cases hl : 97 ≤ c.toNat ∧ c.toNat ≤ 122
  · simp only [hl, and_self, if_true]
    obtain ⟨h1, h2⟩ := hl
    generalize c.toNat = n at h1 h2
    interval_cases n <;> decide
  · simp only [hl, if_false]
    simp only [isKeyNameChar, isKeyNameLetter, hl, decide_False, Bool.false_or, Bool.or_eq_true,
      decide_eq_true_eq] at h
    simp only [isUpperKeyNameChar, Bool.or_eq_true, decide_eq_true_eq]
    exact h

theorem hasDoubleUnderscore_map_upperChar (l : List Char) :
    hasDoubleUnderscore (l.map strings.upperChar) = hasDoubleUnderscore l := by
  induction l with
  | nil => rfl
  | cons a l ih =>
    rw [List.map_cons, hasDoubleUnderscore_cons, hasDoubleUnderscore_cons, ih]
    have h1 : decide (strings.upperChar a = '_') = decide (a = '_') := by
      simp [upperChar_eq_underscore]
    have h2 : decide ((l.map strings.upperChar).head? = some '_') =
        decide (l.head? = some '_') := by
      cases l with
      | nil => simp
      | cons b rest => simp [upperChar_eq_underscore]
    rw [h1, h2]

/-- C13: for every kind, table name and list of fields, the key name of
`DefaultForeignKeyNamer.BuildKeyName` holds only ASCII letters, digits and
underscores, the key name of `firebirdsql.BuildKeyName` holds only upper case
ASCII letters, digits and underscores, and neither has two underscores next to
each other.  On `("fk", "users", "role_id")` the names are `fk_users_role_id`
and `FK_ROLE_ID`. -/
theorem BuildKeyName_sanitised (kind tableName : String) (fields : List String) :
    (∀ c ∈ (DefaultForeignKeyNamer.BuildKeyName kind tableName fields).data,
      isKeyNameChar c = true) ∧
    hasDoubleUnderscore (DefaultForeignKeyNamer.BuildKeyName kind tableName fields).data = false ∧
    (∀ c ∈ (firebirdsql.BuildKeyName kind tableName fields).data,
      isUpperKeyNameChar c = true) ∧
    hasDoubleUnderscore (firebirdsql.BuildKeyName kind tableName fields).data = false ∧
    DefaultForeignKeyNamer.BuildKeyName "fk" "users" ["role_id"] = "fk_users_role_id" ∧
    firebirdsql.BuildKeyName "fk" "users" ["role_id"] = "FK_ROLE_ID" ∧
    DefaultForeignKeyNamer.BuildKeyName "fk" "us--ers é" ["a", "b__c"] = "fk_us_ers_a_b_c" ∧
    DefaultForeignKeyNamer.BuildKeyName "" "" [] = "_" := by
  refine ⟨?_, ?_, ?_, ?_, by decide, by decide, by decide, by decide⟩
  · intro c hc
    exact replaceRuns_chars _ false c hc
  · exact replaceRuns_no_double _ false
  · intro c hc
    simp only [firebirdsql.BuildKeyName, strings.ToUpper, keyNameRegex.ReplaceAllString,
      List.mem_map] at hc
    obtain ⟨a, ha, rfl⟩ := hc
    exact upperChar_keyNameChar a (replaceRuns_chars _ false a ha)
  · simp only [firebirdsql.BuildKeyName, strings.ToUpper, keyNameRegex.ReplaceAllString]
    rw [hasDoubleUnderscore_map_upperChar]
    exact replaceRuns_no_double _ false

/-- The membership hypotheses of C13 hold for the first character of the two key
names of `("fk", "users", "role_id")`. -/
theorem BuildKeyName_sanitised_witness :
    isKeyNameChar 'f' = true ∧ isUpperKeyNameChar 'F' = true :=
  ⟨(BuildKeyName_sanitised "fk" "users" ["role_id"]).1 'f' (by decide),
    (BuildKeyName_sanitised "fk" "users" ["role_id"]).2.2.1 'F' (by decide)⟩

/-- C14: the Firebird key name is not the upper case of the baseline key name:
for `("fk", "users", "role_id")` the baseline name in upper case is
`FK_USERS_ROLE_ID`, and `firebirdsql.BuildKeyName` gives `FK_ROLE_ID`, without
the table name. -/
theorem firebird_BuildKeyName_drops_table :
    firebirdsql.BuildKeyName "fk" "users" ["role_id"] = "FK_ROLE_ID" ∧
      strings.ToUpper (DefaultForeignKeyNamer.BuildKeyName "fk" "users" ["role_id"]) =
        "FK_USERS_ROLE_ID" ∧
      firebirdsql.BuildKeyName "fk" "users" ["role_id"] ≠
        strings.ToUpper (DefaultForeignKeyNamer.BuildKeyName "fk" "users" ["role_id"]) ∧
      firebirdsql.BuildKeyName "fk" "users" ["role_id"] =
        firebirdsql.BuildKeyName "fk" "orders" ["role_id"] := by
  decide

/-! ## Auto-increment emulation -/

theorem HasGeneratorName_iff (db : Catalog) (generatorName : String) :
    firebirdsql.HasGeneratorName db generatorName = true ↔
      strings.ToUpper generatorName ∈ db.generators := by
  simp only [firebirdsql.HasGeneratorName, Catalog.countGenerators, gt_iff_lt,
    decide_eq_true_eq, List.length_pos]
  constructor
  · intro h
    obtain ⟨x, hx⟩ := List.exists_mem_of_ne_nil _ h
    rw [List.mem_filter] at hx
    have hx2 : x = strings.ToUpper generatorName := by simpa using hx.2
    rw [← hx2]
    exact hx.1
  · intro h hnil
    have hmem : strings.ToUpper generatorName ∈
        db.generators.filter (fun g => decide (g = strings.ToUpper generatorName)) := by
      rw [List.mem_filter]
      exact ⟨h, by simp⟩
    rw [hnil] at hmem
    exact absurd hmem (List.not_mem_nil _)

/-- C15: `CreateAutoIncrementTrigger` on the catalog of generator names.  On a
catalog that lacks the generator it executes one `CREATE GENERATOR` and then one
`CREATE TRIGGER`, after which the generator is defined; on a catalog that has
the generator it executes nothing and leaves the database as it is; so a second
call right after a first one changes nothing. -/
theorem CreateAutoIncrementTrigger_idempotent (db : Catalog) (tableName column : String) :
    (firebirdsql.HasGeneratorName db (firebirdsql.BuildKeyName "GEN" tableName [column]) = false →
      (firebirdsql.CreateAutoIncrementTrigger db tableName column).executed =
        db.executed ++
          [Statement.createGenerator (firebirdsql.BuildKeyName "GEN" tableName [column]),
            Statement.createTrigger (firebirdsql.BuildKeyName tableName column ["BI"])
              tableName column (firebirdsql.BuildKeyName "GEN" tableName [column])] ∧
      firebirdsql.HasGeneratorName (firebirdsql.CreateAutoIncrementTrigger db tableName column)
        (firebirdsql.BuildKeyName "GEN" tableName [column]) = true) ∧
    (firebirdsql.HasGeneratorName db (firebirdsql.BuildKeyName "GEN" tableName [column]) = true →
      firebirdsql.CreateAutoIncrementTrigger db tableName column = db) ∧
    firebirdsql.CreateAutoIncrementTrigger
        (firebirdsql.CreateAutoIncrementTrigger db tableName column) tableName column =
      firebirdsql.CreateAutoIncrementTrigger db tableName column := by
  have hfirst : firebirdsql.HasGeneratorName db
      (firebirdsql.BuildKeyName "GEN" tableName [column]) = false →
      (firebirdsql.CreateAutoIncrementTrigger db tableName column).executed =
        db.executed ++
          [Statement.createGenerator (firebirdsql.BuildKeyName "GEN" tableName [column]),
            Statement.createTrigger (firebirdsql.BuildKeyName tableName column ["BI"])
              tableName column (firebirdsql.BuildKeyName "GEN" tableName [column])] ∧
      firebirdsql.HasGeneratorName (firebirdsql.CreateAutoIncrementTrigger db tableName column)
        (firebirdsql.BuildKeyName "GEN" tableName [column]) = true := by
    intro hno
    have hnm : strings.ToUpper (firebirdsql.BuildKeyName "GEN" tableName [column]) ∉
        db.generators := by
      rw [← HasGeneratorName_iff, hno]
      simp
    constructor
    · simp [firebirdsql.CreateAutoIncrementTrigger, firebirdsql.CreateGeneratorName, hno,
        Catalog.Exec]
    · rw [HasGeneratorName_iff]
      simp [firebirdsql.CreateAutoIncrementTrigger, firebirdsql.CreateGeneratorName, hno,
        Catalog.Exec, hnm]
  have hsecond : firebirdsql.HasGeneratorName db
      (firebirdsql.BuildKeyName "GEN" tableName [column]) = true →
      firebirdsql.CreateAutoIncrementTrigger db tableName column = db := by
    intro hyes
    simp [firebirdsql.CreateAutoIncrementTrigger, hyes]
  refine ⟨hfirst, hsecond, ?_⟩
  cases hhas : firebirdsql.HasGeneratorName db (firebirdsql.BuildKeyName "GEN" tableName [column])
  · have hafter := (hfirst hhas).2
    generalize firebirdsql.CreateAutoIncrementTrigger db tableName column = db1 at hafter ⊢
    simp [firebirdsql.CreateAutoIncrementTrigger, hafter]
  · rw [hsecond hhas, hsecond hhas]

/-- The hypotheses of C15 hold on the empty catalog, which lacks the generator,
and on the catalog after the first call, which has it. -/
theorem CreateAutoIncrementTrigger_idempotent_witness :
    (firebirdsql.CreateAutoIncrementTrigger emptyCatalog "users" "id").executed =
        [Statement.createGenerator "GEN_ID",
          Statement.createTrigger "USERS_BI" "users" "id" "GEN_ID"] ∧
      firebirdsql.CreateAutoIncrementTrigger
          (Catalog.mk ["GEN_ID"] [Statement.createGenerator "GEN_ID"]) "users" "id" =
        Catalog.mk ["GEN_ID"] [Statement.createGenerator "GEN_ID"] :=
  ⟨((CreateAutoIncrementTrigger_idempotent emptyCatalog "users" "id").1 (by decide)).1,
    (CreateAutoIncrementTrigger_idempotent
      (Catalog.mk ["GEN_ID"] [Statement.createGenerator "GEN_ID"]) "users" "id").2.1
      (by decide)⟩

/-- C16: the generator name of the Firebird dialect does not depend on the table:
for the column `id` it is `GEN_ID` for the table `users` and for the table
`orders`.  After the set-up for `users`, `CreateAutoIncrementTrigger` for
`orders` finds that generator defined and executes nothing: no generator and no
trigger is created for `orders`. -/
theorem CreateAutoIncrementTrigger_shared_generator :
    firebirdsql.BuildKeyName "GEN" "users" ["id"] = "GEN_ID" ∧
      firebirdsql.BuildKeyName "GEN" "orders" ["id"] = "GEN_ID" ∧
      (firebirdsql.CreateAutoIncrementTrigger emptyCatalog "users" "id").executed =
        [Statement.createGenerator "GEN_ID",
          Statement.createTrigger "USERS_BI" "users" "id" "GEN_ID"] ∧
      firebirdsql.CreateAutoIncrementTrigger
          (firebirdsql.CreateAutoIncrementTrigger emptyCatalog "users" "id") "orders" "id" =
        firebirdsql.CreateAutoIncrementTrigger emptyCatalog "users" "id" ∧
      DefaultForeignKeyNamer.BuildKeyName "GEN" "users" ["id"] ≠
        DefaultForeignKeyNamer.BuildKeyName "GEN" "orders" ["id"] := by
  decide

/-! ## Pagination: the shape of the Firebird clause -/

theorem wrapInt64_range (x : Int) : IsInt64 (wrapInt64 x) := by
  unfold IsInt64 wrapInt64
  omega

/-- The value `ParseInt` returns is an `int64`; next to an error it is zero or
one of the two ends of the range. -/
theorem ParseInt_value (s : String) :
    IsInt64 (strconv.ParseInt s 0 0).1 ∧
      ((strconv.ParseInt s 0 0).2 ≠ none →
        (strconv.ParseInt s 0 0).1 = 0 ∨ (strconv.ParseInt s 0 0).1 = 9223372036854775807 ∨
          (strconv.ParseInt s 0 0).1 = -9223372036854775808) := by
  have e3 : (2 : Nat) ^ (64 - 1) = 9223372036854775808 := by norm_num
  unfold strconv.ParseInt
  simp only [e3]
  split_ifs
  all_goals
    refine ⟨?_, ?_⟩
    · first
        | exact wrapInt64_range _
        | (unfold IsInt64; omega)
    · first
        | (intro h; exact absurd rfl h)
        | (intro _; left; rfl)
        | (intro _; norm_num [wrapInt64])

/-- C18, as stated, fails at the offset 20000 without a limit: the clause is
`" ROWS 20001 TO 10000"`, whose start row is beyond its end row. -/
theorem firebird_LimitAndOffsetSQL_range_counterexample :
    firebirdsql.LimitAndOffsetSQL GoValue.null (GoValue.int 20000) =
        " ROWS " ++ fmt.formatInt 20001 ++ " TO " ++ fmt.formatInt 10000 ∧
      ¬ ((1 : Int) ≤ 20001 ∧ (20001 : Int) ≤ 10000) := by
  decide

/-- C18, amended: for every limit and offset, the clause of the Firebird
`LimitAndOffsetSQL` is empty, or `" ROWS n"` with `n ≥ 0`, or `" ROWS a TO b"`
with `a ≥ 2` where either `a ≤ b` or `b` is the fixed ceiling 10000 that stands
in for a limit. -/
theorem firebird_LimitAndOffsetSQL_range (limit offset : GoValue) :
    firebirdsql.LimitAndOffsetSQL limit offset = "" ∨
    (∃ n : Int, 0 ≤ n ∧ firebirdsql.LimitAndOffsetSQL limit offset = " ROWS " ++ fmt.formatInt n) ∨
    (∃ a b : Int, 2 ≤ a ∧ (a ≤ b ∨ b = 10000) ∧
      firebirdsql.LimitAndOffsetSQL limit offset =
        " ROWS " ++ fmt.formatInt a ++ " TO " ++ fmt.formatInt b) := by
  unfold firebirdsql.LimitAndOffsetSQL
  by_cases hnil : offset = GoValue.null ∧ limit = GoValue.null
  · left
    simp [hnil]
  · simp only [hnil, if_false]
    obtain ⟨hro, -⟩ := ParseInt_value (fmt.Sprint offset)
    obtain ⟨hrl, hel⟩ := ParseInt_value (fmt.Sprint limit)
    generalize strconv.ParseInt (fmt.Sprint offset) 0 0 = po at hro
    generalize strconv.ParseInt (fmt.Sprint limit) 0 0 = pl at hrl hel
    obtain ⟨p, ep⟩ := po
    obtain ⟨q, eq⟩ := pl
    simp only at hro hrl hel
    unfold IsInt64 at hro hrl
    generalize ha : (if offset ≠ GoValue.null then
      if ep = none ∧ p > 0 then wrapInt64 (p + 1) else 0 else 0) = a
    have ha2 : a ≤ 0 ∨ (2 ≤ a ∧ a ≤ 9223372036854775807) := by
      rw [← ha]
      unfold wrapInt64
      split_ifs <;> omega
    clear ha
    generalize hb : (if limit ≠ GoValue.null then
      if eq = none ∧ q > 0 then
        if a > 0 then wrapInt64 (wrapInt64 (q + a) - 1) else q
      else q else 0) = b
    have hb2 : a > 0 → b > 0 → a ≤ b := by
      intro h1 h2
      rw [← hb] at h2 ⊢
      by_cases he : eq = none
      · simp only [he, true_and] at h2 ⊢
        unfold wrapInt64 at h2 ⊢
        split_ifs at h2 ⊢ <;> omega
      · have hq := hel he
        simp only [he, false_and, if_false] at h2 ⊢
        split_ifs at h2 ⊢ <;> omega
    clear hb
    split_ifs with h1 h2 h3
    · right; right
      exact ⟨a, b, by omega, Or.inl (hb2 h1.1 h1.2), by simp⟩
    · right; right
      exact ⟨a, 10000, by omega, Or.inr rfl, by simp⟩
    · right; left
      exact ⟨b, h3, by simp⟩
    · left
      simp

/-- C19: in the Firebird `LimitAndOffsetSQL` an invalid argument is not treated
as an absent one.  With a nil limit, the offset `-1` and the offset `"abc"` give
`" ROWS 0"`, and so does the limit `"abc"` with a nil offset, where two nil
arguments give the empty clause and the baseline dialect gives the empty clause
for each of them; a limit beyond `int64` next to the offset 10 gives a range up
to the largest `int64`, where a nil limit gives the range up to 10000. -/
theorem firebird_LimitAndOffsetSQL_invalid_argument :
    firebirdsql.LimitAndOffsetSQL GoValue.null (GoValue.int (-1)) = " ROWS 0" ∧
      firebirdsql.LimitAndOffsetSQL GoValue.null (GoValue.str "abc") = " ROWS 0" ∧
      firebirdsql.LimitAndOffsetSQL (GoValue.str "abc") GoValue.null = " ROWS 0" ∧
      firebirdsql.LimitAndOffsetSQL GoValue.null GoValue.null = "" ∧
      commonDialect.LimitAndOffsetSQL GoValue.null (GoValue.int (-1)) = "" ∧
      commonDialect.LimitAndOffsetSQL GoValue.null (GoValue.str "abc") = "" ∧
      commonDialect.LimitAndOffsetSQL (GoValue.str "abc") GoValue.null = "" ∧
      firebirdsql.LimitAndOffsetSQL (GoValue.str "99999999999999999999") (GoValue.int 10) =
        " ROWS 11 TO 9223372036854775807" ∧
      firebirdsql.LimitAndOffsetSQL GoValue.null (GoValue.int 10) = " ROWS 11 TO 10000" := by
  decide

/-! ## Column types: failure, integers and timestamps -/

theorem appendAdditionalType_ne_empty (t a : String) (ht : t ≠ "") :
    appendAdditionalType t a ≠ "" := by
  unfold appendAdditionalType
  split_ifs
  · exact ht
  · rw [String.append_assoc]
    exact append_ne_empty _ _ ht

/-- The switch of the baseline dialect leaves the type empty exactly for the
values the specification lists no case for. -/
theorem common_inferType_eq_empty_iff (field : StructField) (v : reflect.Value) (size : Int)
    (hwf : v.WellFormed) :
    commonDialect.inferType field v size = "" ↔ hasInferenceCase v = false := by
  have hvar : "VARCHAR(" ++ fmt.formatInt size ++ ")" ≠ "" := by
    rw [String.append_assoc]
    exact append_ne_empty _ _ (by decide)
  have hbin : "BINARY(" ++ fmt.formatInt size ++ ")" ≠ "" := by
    rw [String.append_assoc]
    exact append_ne_empty _ _ (by decide)
  have h1 : (if commonDialect.fieldCanAutoIncrement field = true then "INTEGER AUTO_INCREMENT"
      else "INTEGER") ≠ "" := by
    split_ifs <;> decide
  have h2 : (if commonDialect.fieldCanAutoIncrement field = true then "BIGINT AUTO_INCREMENT"
      else "BIGINT") ≠ "" := by
    split_ifs <;> decide
  have h3 : (if size > 0 ∧ size < 65532 then "VARCHAR(" ++ fmt.formatInt size ++ ")"
      else "VARCHAR(65532)") ≠ "" := by
    split_ifs
    · exact hvar
    · decide
  have h4 : (if size > 0 ∧ size < 65532 then "BINARY(" ++ fmt.formatInt size ++ ")"
      else "BINARY(65532)") ≠ "" := by
    split_ifs
    · exact hbin
    · decide
  obtain ⟨kind, typeName, isTime, isByteSlice, elemIsUint8⟩ := v
  obtain ⟨ht, hb⟩ := hwf
  simp only at ht hb
  cases kind <;> cases isTime <;> cases isByteSlice <;>
    first
      | (exfalso; exact absurd (ht rfl) (by decide))
      | (exfalso; exact absurd (hb rfl).1 (by decide))
      | (simp only [commonDialect.inferType, hasInferenceCase]
         simp [h1, h2, h3, h4])

/-- C11: for a well-formed value, the baseline `DataTypeOf` panics exactly when
the field has no explicit type and its value is none of bool, a fixed-width
integer or uintptr, a float, a string, a `time.Time` or a `[]byte`; in every
other case it returns a type that is not empty. -/
theorem common_DataTypeOf_panics_iff (field : StructField) (parsed : ParsedField)
    (hwf : parsed.dataValue.WellFormed) :
    ((∃ message, commonDialect.DataTypeOf field parsed = Except.error message) ↔
      (parsed.sqlType = "" ∧ hasInferenceCase parsed.dataValue = false)) ∧
    (¬ (parsed.sqlType = "" ∧ hasInferenceCase parsed.dataValue = false) →
      ∃ r, commonDialect.DataTypeOf field parsed = Except.ok r ∧ r ≠ "") := by
  have hiff := common_inferType_eq_empty_iff field parsed.dataValue parsed.size hwf
  by_cases hov : parsed.sqlType = ""
  · by_cases hcase : hasInferenceCase parsed.dataValue = false
    · have hempty := hiff.mpr hcase
      refine ⟨⟨fun _ => ⟨hov, hcase⟩, fun _ => ?_⟩, fun h => absurd ⟨hov, hcase⟩ h⟩
      simp [commonDialect.DataTypeOf, hov, hempty]
    · have hne : commonDialect.inferType field parsed.dataValue parsed.size ≠ "" :=
        fun h => hcase (hiff.mp h)
      have hres : commonDialect.DataTypeOf field parsed = Except.ok (appendAdditionalType
          (commonDialect.inferType field parsed.dataValue parsed.size) parsed.additionalType) := by
        simp [commonDialect.DataTypeOf, hov, hne]
      refine ⟨⟨fun ⟨message, hm⟩ => ?_, fun h => absurd h.2 hcase⟩, fun _ =>
        ⟨_, hres, appendAdditionalType_ne_empty _ _ hne⟩⟩
      rw [hres] at hm
      cases hm
  · have hres : commonDialect.DataTypeOf field parsed =
        Except.ok (appendAdditionalType parsed.sqlType parsed.additionalType) := by
      simp [commonDialect.DataTypeOf, hov]
    refine ⟨⟨fun ⟨message, hm⟩ => ?_, fun h => absurd h.1 hov⟩, fun _ =>
      ⟨_, hres, appendAdditionalType_ne_empty _ _ hov⟩⟩
    rw [hres] at hm
    cases hm

/-- The hypothesis of C11 holds for a `chan` field, on which the baseline
`DataTypeOf` panics, and for a `bool` field, on which it returns a type. -/
theorem common_DataTypeOf_panics_iff_witness :
    (∃ message, commonDialect.DataTypeOf plainField (ParsedField.mk chanValue "" 0 "") =
        Except.error message) ∧
      (∃ r, commonDialect.DataTypeOf plainField (ParsedField.mk boolValue "" 0 "") =
        Except.ok r ∧ r ≠ "") :=
  ⟨(common_DataTypeOf_panics_iff plainField (ParsedField.mk chanValue "" 0 "")
      (by decide)).1.mpr (by decide),
    (common_DataTypeOf_panics_iff plainField (ParsedField.mk boolValue "" 0 "")
      (by decide)).2 (by decide)⟩

theorem ToLower_ne_false_iff (value : String) :
    strings.ToLower value ≠ "false" ↔ equalIgnoringCase value "false" = false := by
  have hf : ("false" : String).data.map Char.toLower = ("false" : String).data := by decide
  simp only [strings.ToLower, equalIgnoringCase, hf, ne_eq, decide_eq_false_iff_not]
  constructor
  · intro h h2
    apply h
    exact String.ext h2
  · intro h h2
    apply h
    exact congrArg String.data h2

/-- The auto-increment test of the code is the decision the specification words. -/
theorem fieldCanAutoIncrement_eq (field : StructField) :
    commonDialect.fieldCanAutoIncrement field = wantsAutoIncrement field := by
  unfold commonDialect.fieldCanAutoIncrement wantsAutoIncrement StructField.TagSettingsGet
  cases h : field.TagSettings.lookup "AUTO_INCREMENT" with
  | none => rfl
  | some value =>
    simp only
    by_cases hv : strings.ToLower value ≠ "false"
    · have := (ToLower_ne_false_iff value).mp hv
      simp [hv, this]
    · have hn : ¬ equalIgnoringCase value "false" = false :=
        fun h2 => hv ((ToLower_ne_false_iff value).mpr h2)
      simp only [ne_eq, Bool.not_eq_false] at hn
      simp [hv, hn]

/-- C12, as stated, fails for a primary key of kind `int64` whose tag settings
hold `AUTO_INCREMENT` with the value `false`: the baseline dialect infers
`BIGINT`. -/
theorem common_DataTypeOf_bigint_key_counterexample :
    keyFieldWithoutAutoIncrement.IsPrimaryKey = true ∧
      commonDialect.DataTypeOf keyFieldWithoutAutoIncrement (ParsedField.mk int64Value "" 0 "") =
        Except.ok "BIGINT" ∧
      commonDialect.DataTypeOf keyFieldWithoutAutoIncrement (ParsedField.mk int64Value "" 0 "") ≠
        Except.ok "BIGINT AUTO_INCREMENT" := by
  decide

/-- C12, amended: for a primary key of kind `int64` or `uint64` without an
explicit type, whose tag settings do not hold `AUTO_INCREMENT` with a value that
is `false` in some case, the baseline dialect infers `BIGINT AUTO_INCREMENT`,
and `DataTypeOf` returns it, followed by the additional type when that is not
blank. -/
theorem common_DataTypeOf_bigint_key (field : StructField) (parsed : ParsedField)
    (hkind : isBigIntKind parsed.dataValue.kind = true) (hkey : field.IsPrimaryKey = true)
    (htag : ∀ value, field.TagSettings.lookup "AUTO_INCREMENT" = some value →
      equalIgnoringCase value "false" = false)
    (hov : parsed.sqlType = "") :
    commonDialect.inferType field parsed.dataValue parsed.size = "BIGINT AUTO_INCREMENT" ∧
      commonDialect.DataTypeOf field parsed =
        Except.ok (if strings.TrimSpace parsed.additionalType = "" then "BIGINT AUTO_INCREMENT"
          else "BIGINT AUTO_INCREMENT" ++ " " ++ parsed.additionalType) := by
  have hwants : commonDialect.fieldCanAutoIncrement field = true := by
    rw [fieldCanAutoIncrement_eq]
    unfold wantsAutoIncrement
    cases h : field.TagSettings.lookup "AUTO_INCREMENT" with
    | none => exact hkey
    | some value => simp [htag value h]
  have hinfer : commonDialect.inferType field parsed.dataValue parsed.size =
      "BIGINT AUTO_INCREMENT" := by
    simp only [isBigIntKind, decide_eq_true_eq] at hkind
    rcases hkind with hk | hk <;> simp [commonDialect.inferType, hk, hwants]
  refine ⟨hinfer, ?_⟩
  have hne : ("BIGINT AUTO_INCREMENT" : String) ≠ "" := by decide
  simp only [commonDialect.DataTypeOf, hov, if_true, hinfer, hne, if_false, appendAdditionalType]

/-- The hypotheses of the amended C12 hold for a primary key of kind `int64`
without tag settings. -/
theorem common_DataTypeOf_bigint_key_witness :
    commonDialect.DataTypeOf keyField (ParsedField.mk int64Value "" 0 "NOT NULL") =
      Except.ok "BIGINT AUTO_INCREMENT NOT NULL" :=
  (common_DataTypeOf_bigint_key keyField (ParsedField.mk int64Value "" 0 "NOT NULL")
    (by decide) (by decide) (by decide) rfl).2

theorem lookup_isSome_iff (l : List (String × String)) (key : String) :
    (l.lookup key).isSome = true ↔ ∃ value, (key, value) ∈ l := by
  induction l with
  | nil => simp
  | cons entry rest ih =>
    obtain ⟨k, v⟩ := entry
    by_cases hk : key = k
    · subst hk
      simp [List.lookup]
    · have hk2 : (key == k) = false := by simp [hk]
      simp only [List.lookup, hk2, ih, List.mem_cons, Prod.mk.injEq, hk, false_and, false_or]

/-- C17: for a `time.Time` field without an explicit type, the Firebird dialect
infers `TIMESTAMP NOT NULL` exactly when the field is a primary key or its tag
settings hold the key `NOT NULL`, and `TIMESTAMP` otherwise; the baseline
dialect infers `TIMESTAMP`; both `DataTypeOf` return the inferred type, followed
by the additional type when that is not blank. -/
theorem DataTypeOf_timestamp (field : StructField) (parsed : ParsedField)
    (hov : parsed.sqlType = "") (hwf : parsed.dataValue.WellFormed)
    (htime : parsed.dataValue.isTime = true) :
    (firebirdsql.inferType field parsed.dataValue parsed.size = "TIMESTAMP NOT NULL" ↔
      (field.IsPrimaryKey = true ∨ ∃ value, ("NOT NULL", value) ∈ field.TagSettings)) ∧
    (¬ (field.IsPrimaryKey = true ∨ ∃ value, ("NOT NULL", value) ∈ field.TagSettings) →
      firebirdsql.inferType field parsed.dataValue parsed.size = "TIMESTAMP") ∧
    commonDialect.inferType field parsed.dataValue parsed.size = "TIMESTAMP" ∧
    firebirdsql.DataTypeOf field parsed =
      Except.ok (if strings.TrimSpace parsed.additionalType = "" then
          firebirdsql.inferType field parsed.dataValue parsed.size
        else firebirdsql.inferType field parsed.dataValue parsed.size ++ " " ++
          parsed.additionalType) ∧
    commonDialect.DataTypeOf field parsed =
      Except.ok (if strings.TrimSpace parsed.additionalType = "" then "TIMESTAMP"
        else "TIMESTAMP" ++ " " ++ parsed.additionalType) := by
  have hk : parsed.dataValue.kind = reflect.Kind.Struct := hwf.1 htime
  have hcommon : commonDialect.inferType field parsed.dataValue parsed.size = "TIMESTAMP" := by
    simp [commonDialect.inferType, hk, htime]
  have hl := lookup_isSome_iff field.TagSettings "NOT NULL"
  have hcode : firebirdsql.inferType field parsed.dataValue parsed.size =
      if (field.TagSettings.lookup "NOT NULL").isSome = true ∨ field.IsPrimaryKey = true then
        "TIMESTAMP NOT NULL" else "TIMESTAMP" := by
    simp only [firebirdsql.inferType, hk, htime, if_true, StructField.TagSettingsGet]
  have hpos : (field.IsPrimaryKey = true ∨ ∃ value, ("NOT NULL", value) ∈ field.TagSettings) →
      firebirdsql.inferType field parsed.dataValue parsed.size = "TIMESTAMP NOT NULL" := by
    intro hc
    have hc2 : (field.TagSettings.lookup "NOT NULL").isSome = true ∨ field.IsPrimaryKey = true :=
      hc.symm.imp_left hl.mpr
    rw [hcode, if_pos hc2]
  have hneg : ¬ (field.IsPrimaryKey = true ∨ ∃ value, ("NOT NULL", value) ∈ field.TagSettings) →
      firebirdsql.inferType field parsed.dataValue parsed.size = "TIMESTAMP" := by
    intro hc
    have hc2 : ¬ ((field.TagSettings.lookup "NOT NULL").isSome = true ∨
        field.IsPrimaryKey = true) := fun h => hc (h.symm.imp_right hl.mp)
    rw [hcode, if_neg hc2]
  have hne : firebirdsql.inferType field parsed.dataValue parsed.size ≠ "" := by
    rw [hcode]
    split_ifs <;> decide
  have hne2 : ("TIMESTAMP" : String) ≠ "" := by decide
  refine ⟨⟨fun h => ?_, hpos⟩, hneg, hcommon, ?_, ?_⟩
  · by_contra hc
    rw [hneg hc] at h
    exact absurd h (by decide)
  · simp only [firebirdsql.DataTypeOf, hov, if_true, hne, if_false, appendAdditionalType]
  · simp only [commonDialect.DataTypeOf, hov, if_true, hcommon, hne2, if_false,
      appendAdditionalType]

/-- The hypotheses of C17 hold for a `time.Time` primary key, for which the
Firebird dialect returns `TIMESTAMP NOT NULL` and the baseline dialect
`TIMESTAMP`. -/
theorem DataTypeOf_timestamp_witness :
    firebirdsql.DataTypeOf keyField (ParsedField.mk timeValue "" 0 "") =
        Except.ok "TIMESTAMP NOT NULL" ∧
      commonDialect.DataTypeOf keyField (ParsedField.mk timeValue "" 0 "") =
        Except.ok "TIMESTAMP" :=
  ⟨(DataTypeOf_timestamp keyField (ParsedField.mk timeValue "" 0 "") rfl (by decide) rfl).2.2.2.1,
    (DataTypeOf_timestamp keyField (ParsedField.mk timeValue "" 0 "") rfl (by decide) rfl).2.2.2.2⟩

/-- C20: for an integer field without an explicit type, the baseline dialect
infers the `AUTO_INCREMENT` type (`INTEGER AUTO_INCREMENT` for the kinds of at
most 32 bits, `int`, `uint` and `uintptr`, `BIGINT AUTO_INCREMENT` for `int64`
and `uint64`) exactly when the `AUTO_INCREMENT` setting is present with a value
other than `false` in any case, or is absent on a primary key; otherwise it
infers `INTEGER`, respectively `BIGINT`, and `DataTypeOf` returns the inferred
type with the additional type.  A present setting decides against the primary
key flag both ways. -/
theorem common_DataTypeOf_auto_increment (field : StructField) (parsed : ParsedField)
    (hov : parsed.sqlType = "") :
    (isSmallIntKind parsed.dataValue.kind = true →
      (commonDialect.inferType field parsed.dataValue parsed.size = "INTEGER AUTO_INCREMENT" ↔
        wantsAutoIncrement field = true) ∧
      (wantsAutoIncrement field = false →
        commonDialect.inferType field parsed.dataValue parsed.size = "INTEGER") ∧
      commonDialect.DataTypeOf field parsed =
        Except.ok (appendAdditionalType
          (if wantsAutoIncrement field = true then "INTEGER AUTO_INCREMENT" else "INTEGER")
          parsed.additionalType)) ∧
    (isBigIntKind parsed.dataValue.kind = true →
      (commonDialect.inferType field parsed.dataValue parsed.size = "BIGINT AUTO_INCREMENT" ↔
        wantsAutoIncrement field = true) ∧
      (wantsAutoIncrement field = false →
        commonDialect.inferType field parsed.dataValue parsed.size = "BIGINT") ∧
      commonDialect.DataTypeOf field parsed =
        Except.ok (appendAdditionalType
          (if wantsAutoIncrement field = true then "BIGINT AUTO_INCREMENT" else "BIGINT")
          parsed.additionalType)) ∧
    (∀ value, field.TagSettings.lookup "AUTO_INCREMENT" = some value →
      (wantsAutoIncrement field = true ↔ equalIgnoringCase value "false" = false)) ∧
    (field.TagSettings.lookup "AUTO_INCREMENT" = none →
      (wantsAutoIncrement field = true ↔ field.IsPrimaryKey = true)) := by
  have hcan := fieldCanAutoIncrement_eq field
  refine ⟨fun hkind => ?_, fun hkind => ?_, fun value hv => ?_, fun hv => ?_⟩
  · have hinfer : commonDialect.inferType field parsed.dataValue parsed.size =
        if wantsAutoIncrement field = true then "INTEGER AUTO_INCREMENT" else "INTEGER" := by
      simp only [isSmallIntKind, List.mem_cons, List.mem_singleton, List.not_mem_nil, or_false,
        decide_eq_true_eq] at hkind
      rcases hkind with hk | hk | hk | hk | hk | hk | hk | hk | hk <;>
        simp only [commonDialect.inferType, hk, hcan]
    have hne : (if wantsAutoIncrement field = true then "INTEGER AUTO_INCREMENT"
        else "INTEGER") ≠ "" := by
      split_ifs <;> decide
    refine ⟨?_, ?_, ?_⟩
    · rw [hinfer]
      by_cases hw : wantsAutoIncrement field = true
      · simp [hw]
      · simp only [hw, if_false, iff_false]
        decide
    · intro hw
      rw [hinfer]
      simp [hw]
    · simp only [commonDialect.DataTypeOf, hov, if_true, hinfer, hne, if_false]
  · have hinfer : commonDialect.inferType field parsed.dataValue parsed.size =
        if wantsAutoIncrement field = true then "BIGINT AUTO_INCREMENT" else "BIGINT" := by
      simp only [isBigIntKind, decide_eq_true_eq] at hkind
      rcases hkind with hk | hk <;> simp only [commonDialect.inferType, hk, hcan]
    have hne : (if wantsAutoIncrement field = true then "BIGINT AUTO_INCREMENT"
        else "BIGINT") ≠ "" := by
      split_ifs <;> decide
    refine ⟨?_, ?_, ?_⟩
    · rw [hinfer]
      by_cases hw : wantsAutoIncrement field = true
      · simp [hw]
      · simp only [hw, if_false, iff_false]
        decide
    · intro hw
      rw [hinfer]
      simp [hw]
    · simp only [commonDialect.DataTypeOf, hov, if_true, hinfer, hne, if_false]
  · simp [wantsAutoIncrement, hv]
  · simp [wantsAutoIncrement, hv]

/-- The hypotheses of C20 hold for an `int64` primary key whose tag turns
auto-increment off, which gets `BIGINT`, and for one without tag settings, which
gets `BIGINT AUTO_INCREMENT`. -/
theorem common_DataTypeOf_auto_increment_witness :
    commonDialect.inferType keyFieldWithoutAutoIncrement int64Value 0 = "BIGINT" ∧
      commonDialect.DataTypeOf keyField (ParsedField.mk int64Value "" 0 "") =
        Except.ok "BIGINT AUTO_INCREMENT" :=
  ⟨((common_DataTypeOf_auto_increment keyFieldWithoutAutoIncrement
      (ParsedField.mk int64Value "" 0 "") rfl).2.1 (by decide)).2.1 (by decide),
    ((common_DataTypeOf_auto_increment keyField
      (ParsedField.mk int64Value "" 0 "") rfl).2.1 (by decide)).2.2⟩

end Gorm
